import Mathlib

/-!
# Verification of the `game2` room actor (GameRoom Durable Object)

Shallow embedding of the authoritative game-server logic of the repository:
the `GameRoom` class (market / buy / auction / path phase resolution, the
`alarm` phase state machine, the player-action handlers) together with the
grid generator `generateGrid` and the axial hex helpers.

Modelling conventions:
* JavaScript numbers that the program only ever uses as integers are `Int`
  (money, bids, dice values, coordinates, producer/seller values).
  `Math.floor` applied to a product of integers is the identity and is noted
  where it occurs in the source.
* JavaScript `Record<string, T>` objects are association lists
  `List (String × T)` with JS object key semantics: `Object.entries`
  iterates in insertion order, assigning to an existing key keeps its
  position, assigning a new key appends (`assocSet`), `delete` removes the
  key (`assocErase`).
* JavaScript `Map` iteration order (insertion order of keys) is modelled by
  grouping lists that preserve first-occurrence order.
* In-place mutation of an object found by `Array.prototype.find` is
  modelled by `updateFirst`, which rewrites the first matching element.
* Randomness (`Math.random` inside `randomDice`, `shuffle`, `randomInt`) is
  abstracted into explicit oracle parameters supplying the drawn values;
  wall-clock time (`Date.now()`, `phaseEndsAt`, alarm scheduling) is not
  modelled — the timer merely decides *when* `alarm()` runs, and the
  resolution steps here can be taken at any time, a superset of the real
  traces.  Conflict ids drop the `Date.now()` suffix the source appends;
  within one resolution batch they are distinct without it.
* Presentation-only player fields (`displayName`, `color`) and the
  write-only `roundsOwned` owner field are omitted.
-/

namespace Game2

abbrev PlayerId := String
abbrev CellId := String

/-- `role: 'producer' | 'seller'` from `types.ts`. -/
inductive Role where
  | producer
  | seller
deriving DecidableEq, Repr

/-- `CellOwner` from `types.ts` (without the write-only `roundsOwned`). -/
structure CellOwner where
  playerId : PlayerId
  role : Role
deriving DecidableEq, Repr

/-- `Cell` from `types.ts`; `owners?` is always materialised as a list. -/
structure Cell where
  id : CellId
  q : Int
  r : Int
  diceValue : Int
  producer : Int
  seller : Int
  blocked : Bool
  owners : List CellOwner
deriving DecidableEq, Repr

/-- `Player` from `types.ts` (identity and game resources only). -/
structure Player where
  playerId : PlayerId
  money : Int
  dice : List Int
deriving DecidableEq, Repr

/-- `GamePhase` from `types.ts`. -/
inductive Phase where
  | lobby
  | round_start
  | market_phase
  | buy_phase
  | path_phase
  | auction
  | round_end
  | ended
deriving DecidableEq, Repr

/-- `Axial` from `hex.ts`. -/
structure Axial where
  q : Int
  r : Int
deriving DecidableEq, Repr

/-- An entry of `pending.buy[playerId]`. -/
structure BuyAct where
  cellId : CellId
  role : Role
deriving DecidableEq, Repr

/-- An entry of `pending.market`. -/
structure MarketBid where
  dieIndex : Int
  amount : Int
deriving DecidableEq, Repr

/-- An entry of `submittedPaths`. -/
structure SubmittedPath where
  producerId : CellId
  sellerId : CellId
  path : List Axial
  revenue : Int
deriving DecidableEq, Repr

/-- The tagged union of `PendingActions['conflicts']` elements. -/
inductive Conflict where
  | cell (conflictId : String) (cellId : CellId) (playerIds : List PlayerId)
  | market (conflictId : String) (dieIndex : Int) (playerIds : List PlayerId)
deriving DecidableEq, Repr

/-- Messages the room sends: `sendTo` payloads and the `state` broadcast. -/
inductive OutMsg where
  | error (message : String)
  | joined (playerId : PlayerId)
  | pathRevenue (revenue : Int)
  | broadcast
deriving DecidableEq, Repr

/-! ## Association-list helpers (JS `Record` / `Map` semantics) -/

/-- `record[k]` — first binding of the key, if any. -/
def assocLookup (k : String) : List (String × α) → Option α
  | [] => none
  | (k', v) :: rest => if k' = k then some v else assocLookup k rest

/-- `record[k] = v` — overwrite in place, or append a fresh key. -/
def assocSet (k : String) (v : α) : List (String × α) → List (String × α)
  | [] => [(k, v)]
  | (k', v') :: rest =>
      if k' = k then (k, v) :: rest else (k', v') :: assocSet k v rest

/-- `delete record[k]`. -/
def assocErase (k : String) : List (String × α) → List (String × α)
  | [] => []
  | (k', v') :: rest =>
      if k' = k then rest else (k', v') :: assocErase k rest

/-- Mutation through `array.find(p)`: rewrite the first element satisfying
`p`, leave the rest untouched. -/
def updateFirst (p : α → Bool) (f : α → α) : List α → List α
  | [] => []
  | x :: rest => if p x then f x :: rest else x :: updateFirst p f rest

/-! ## Hex helpers (`hex.ts`) -/

/-- The six `DIRECTIONS` offsets applied to `a` (`axialNeighbors`). -/
def axialNeighbors (a : Axial) : List Axial :=
  [⟨a.q + 1, a.r⟩, ⟨a.q + 1, a.r - 1⟩, ⟨a.q, a.r - 1⟩,
   ⟨a.q - 1, a.r⟩, ⟨a.q - 1, a.r + 1⟩, ⟨a.q, a.r + 1⟩]

/-- `axialEquals`. -/
def axialEquals (a b : Axial) : Bool :=
  a.q == b.q && a.r == b.r

/-! ## Path revenue (`GameRoom.computePathRevenue`) -/

/-- `grid.find((c) => c.q === hex.q && c.r === hex.r)`. -/
def findCellAt (grid : List Cell) (h : Axial) : Option Cell :=
  grid.find? fun c => c.q == h.q && c.r == h.r

/-- The `enemyTerritory` loop: indices `1 .. path.length − 2`, counting hexes
whose cell has some owner other than the submitter (`cell?.owners?.some(...)`
is `false` when the hex has no cell). -/
def enemyTerritoryCount (grid : List Cell) (playerId : PlayerId)
    (path : List Axial) : Nat :=
  ((path.drop 1).dropLast).countP fun h =>
    match findCellAt grid h with
    | some c => c.owners.any fun o => o.playerId != playerId
    | none => false

/-- `GameRoom.computePathRevenue`.  All quantities are integers, so the
source's `Math.floor(producer.producer * effectiveSeller)` is the plain
product. -/
def computePathRevenue (grid : List Cell) (playerId : PlayerId)
    (producer seller : Cell) (path : List Axial) : Int :=
  let pathLength : Int := (path.length : Int) - 1
  let enemyTerritory : Int := (enemyTerritoryCount grid playerId path : Int)
  let effectiveSeller := max 0 (min (seller.seller - pathLength - 2 * enemyTerritory) 1)
  producer.producer * effectiveSeller

/-- `clamp(x, lo, hi)` as the specification writes it. -/
def clamp (x lo hi : Int) : Int :=
  max lo (min x hi)

/-- The revenue formula in the words of the specification, for comparison
with the embedded code: for a path of `N` hexes the revenue is
`floor(P.producer * clamp(S.seller - (N-1) - 2*enemyTerritory, 0, 1))`
(the floor of a product of integers is the product), where
`enemyTerritory` counts the interior hexes — the path with both endpoints
excluded, here all but the last hex and then all but the first — whose
cell has at least one owner other than the submitter. -/
def specPathRevenue (grid : List Cell) (playerId : PlayerId)
    (producer seller : Cell) (path : List Axial) : Int :=
  let n : Int := (path.length : Int)
  let interior := (path.take (path.length - 1)).drop 1
  let enemyTerritory : Int :=
    (interior.countP
      (fun h =>
        match findCellAt grid h with
        | some c => c.owners.any fun o => o.playerId != playerId
        | none => false) : Int)
  producer.producer * clamp (seller.seller - (n - 1) - 2 * enemyTerritory) 0 1

/-! ## Room state

One record for the durable-storage keys `config`, `players`, `grid`,
`pendingActions`, `submittedPaths`, `winnerId`.  `roundCount`/`roundIndex`
are `Nat` (the source keeps them as non-negative numbers: `roundIndex`
starts at 0 and is only incremented; a non-positive `roundCount` behaves
like 0). -/

structure RoomState where
  roundCount : Nat
  phase : Phase
  roundIndex : Nat
  marketDice : List Int
  marketMinPrice : Int
  players : List Player
  grid : List Cell
  pendingBuy : List (PlayerId × List BuyAct)
  pendingBuyDone : List (PlayerId × Bool)
  pendingPathReady : List (PlayerId × Bool)
  pendingMarket : List (PlayerId × MarketBid)
  pendingMarketSkip : List (PlayerId × Bool)
  auctionBids : List (String × List (PlayerId × Int))
  conflicts : List Conflict
  submittedPaths : List (PlayerId × SubmittedPath)
  winnerId : Option PlayerId
deriving DecidableEq, Repr

/-- `emptyPendingActions()` applied to a state: all pending buffers reset. -/
def clearPending (st : RoomState) : RoomState :=
  { st with pendingBuy := [], pendingBuyDone := [], pendingPathReady := [],
            pendingMarket := [], pendingMarketSkip := [], auctionBids := [],
            conflicts := [] }

/-- `GameRoom.initialize(roundCount)`: lobby phase, no players, no grid. -/
def initialState (roundCount : Nat) : RoomState :=
  { roundCount := roundCount
    phase := .lobby
    roundIndex := 0
    marketDice := []
    marketMinPrice := 1       -- MARKET_MIN_PRICE
    players := []
    grid := []
    pendingBuy := []
    pendingBuyDone := []
    pendingPathReady := []
    pendingMarket := []
    pendingMarketSkip := []
    auctionBids := []
    conflicts := []
    submittedPaths := []
    winnerId := none }

/-! ## Board generation (`grid.ts`) -/

/-- `hexRegionCount(r) = 1 + 3·r·(r+1)`. -/
def hexRegionCount (r : Nat) : Nat :=
  1 + 3 * r * (r + 1)

/-- `hexRegion(radius)`: all axial coordinates of the hex of the given
radius, `q` from `−radius` to `radius`, `r` from `max(−radius, −q−radius)`
to `min(radius, −q+radius)`. -/
def hexRegion (radius : Nat) : List Axial :=
  ((List.range (2 * radius + 1)).map fun qi =>
    let q : Int := (qi : Int) - (radius : Int)
    let r1 : Int := max (-(radius : Int)) (-q - radius)
    let r2 : Int := min (radius : Int) (-q + radius)
    (List.range (r2 - r1 + 1).toNat).map fun ri => Axial.mk q (r1 + ri)).flatten

/-- The `while (hexRegionCount(radius) < totalNeeded) radius++` loop,
run with explicit fuel (`hexRegionCount` is increasing, so
`totalNeeded` steps always suffice). -/
def findRadius (totalNeeded : Nat) : Nat → Nat → Nat
  | 0, radius => radius
  | fuel + 1, radius =>
      if hexRegionCount radius < totalNeeded then findRadius totalNeeded fuel (radius + 1)
      else radius

/-- `generateGrid(minCells, blockedCount)`.  The random draws are supplied
by oracles: `blockedIdx` stands for the shuffled index list whose prefix
becomes the blocked set, and `diceVals`/`prodVals`/`sellVals` for the
`randomInt` streams (including the post-hoc guarantee pass that plants each
die face once — it only rewrites `diceVals` entries, which the oracle
already covers).  Every produced cell has `owners := []`. -/
def generateGrid (minCells blockedCount : Nat) (blockedIdx : List Nat)
    (diceVals prodVals sellVals : Nat → Int) : List Cell :=
  let totalNeeded := minCells + blockedCount
  let radius := findRadius totalNeeded totalNeeded 1
  let coords := hexRegion radius
  let totalCells := coords.length
  let effectiveBlockedCount := min blockedCount (totalCells - 1)
  let blockedSet := blockedIdx.take effectiveBlockedCount
  coords.enum.map fun ai =>
    { id := "cell-" ++ toString ai.2.q ++ "-" ++ toString ai.2.r
      q := ai.2.q
      r := ai.2.r
      diceValue := diceVals ai.1
      producer := prodVals ai.1
      seller := sellVals ai.1
      blocked := blockedSet.contains ai.1
      owners := [] }

/-! ## Market-phase resolution (`alarm`, `config.phase === 'market_phase'`) -/

/-- One insertion into `bidsByDieIndex`: groups keep first-occurrence order
of die indices (JS `Map` iteration order), and a player already present in
a group is not added again (`!list.some((entry) => entry.playerId === pid)`). -/
def addBidToGroups (pid : PlayerId) (b : MarketBid) :
    List (Int × List (PlayerId × Int)) → List (Int × List (PlayerId × Int))
  | [] => [(b.dieIndex, [(pid, b.amount)])]
  | (d, l) :: rest =>
      if d = b.dieIndex then
        if l.any (fun e => e.1 == pid) then (d, l) :: rest
        else (d, l ++ [(pid, b.amount)]) :: rest
      else (d, l) :: addBidToGroups pid b rest

/-- The grouping loop over `Object.entries(pending.market)`: bids below the
minimum price are dropped, the rest grouped by die index. -/
def groupBidsByDieIndex (minPrice : Int) (bids : List (PlayerId × MarketBid)) :
    List (Int × List (PlayerId × Int)) :=
  bids.foldl
    (fun gs pb => if pb.2.amount < minPrice then gs else addBidToGroups pb.1 pb.2 gs)
    []

/-- Intermediate state threaded through the per-die resolution loop. -/
structure MarketResolveSt where
  players : List Player
  marketDice : List Int
  conflicts : List Conflict
deriving DecidableEq, Repr

/-- `bestBid` scan: maximum bid amount, starting from `−1`. -/
def bestBidOf (bids : List (PlayerId × Int)) : Int :=
  bids.foldl (fun best b => if b.2 > best then b.2 else best) (-1)

/-- The tied top bidders: `bids.filter((bid) => bid.amount === bestBid)`. -/
def topBidders (bids : List (PlayerId × Int)) : List PlayerId :=
  (bids.filter fun b => b.2 == bestBidOf bids).map (·.1)

/-- The body of the `for (const [dieIndex, bids] of bidsByDieIndex)` loop:
a unique highest bidder pays and takes the die (slot marked `-1`) when
solvent, a tie records a `market` conflict. -/
def resolveDieGroup (st : MarketResolveSt) (dieIndex : Int)
    (bids : List (PlayerId × Int)) : MarketResolveSt :=
  if dieIndex < 0 ∨ (st.marketDice.length : Int) ≤ dieIndex then st
  else if bids.isEmpty then st
  else
    let bestBid := bestBidOf bids
    match topBidders bids with
    | [w] =>
        match st.players.find? (fun p => p.playerId == w) with
        | some player =>
            if bestBid ≤ player.money then
              { st with
                players := updateFirst (fun p => p.playerId == w)
                  (fun p => { p with money := p.money - bestBid,
                                     dice := p.dice ++ [st.marketDice.getD dieIndex.toNat 0] })
                  st.players
                marketDice := st.marketDice.set dieIndex.toNat (-1) }
            else st
        | none => st
    | winners =>
        { st with conflicts := st.conflicts ++
            [Conflict.market ("market-" ++ toString dieIndex) dieIndex winners] }

/-- The whole `market_phase` branch of `alarm`: group, resolve each die,
then either enter the auction (keeping the rest of the pending buffer,
resetting `auctionBids`) or drop the awarded `-1` slots and move to
`buy_phase` with a fresh pending buffer. -/
def resolveMarketPhase (st : RoomState) : RoomState :=
  let groups := groupBidsByDieIndex st.marketMinPrice st.pendingMarket
  let ms := groups.foldl (fun s g => resolveDieGroup s g.1 g.2)
    ⟨st.players, st.marketDice, []⟩
  if ms.conflicts.isEmpty then
    { clearPending st with
        phase := .buy_phase
        players := ms.players
        marketDice := ms.marketDice.filter (· != -1) }
  else
    { st with
        phase := .auction
        players := ms.players
        marketDice := ms.marketDice
        conflicts := ms.conflicts
        auctionBids := [] }

/-! ## Buy-phase resolution (`alarm`, `config.phase === 'buy_phase'`) -/

/-- A committed/attempted single-claimant purchase (`toApply` element). -/
structure ApplyAct where
  playerId : PlayerId
  cellId : CellId
  role : Role
deriving DecidableEq, Repr

/-- Add a claimant to `byCell`, preserving first-occurrence order of cells
and deduplicating player ids within one cell (`!list.includes(pid)`). -/
def addPidToCellGroups (cid : CellId) (pid : PlayerId) :
    List (CellId × List PlayerId) → List (CellId × List PlayerId)
  | [] => [(cid, [pid])]
  | (c, l) :: rest =>
      if c = cid then
        if l.contains pid then (c, l) :: rest else (c, l ++ [pid]) :: rest
      else (c, l) :: addPidToCellGroups cid pid rest

/-- The double loop building `roleByPlayerCell` and `byCell`: per player a
`seen` set skips duplicate cell ids (and the falsy check skips an empty
cell id), roles are recorded per `(pid, cellId)` pair. -/
def buildByCell (buys : List (PlayerId × List BuyAct)) :
    List (CellId × List PlayerId) × List ((PlayerId × CellId) × Role) :=
  buys.foldl
    (fun acc pb =>
      (pb.2.foldl
        (fun inner a =>
          let (seen, byCell, roles) := inner
          if a.cellId = "" ∨ seen.contains a.cellId then inner
          else (a.cellId :: seen,
                addPidToCellGroups a.cellId pb.1 byCell,
                roles ++ [((pb.1, a.cellId), a.role)]))
        (([] : List CellId), acc.1, acc.2)).2)
    ([], [])

/-- Role lookup in `roleByPlayerCell` (a JS `Map` keyed by `pid:cellId`;
the `seen` set makes keys unique, so first match suffices). -/
def roleFor (roles : List ((PlayerId × CellId) × Role)) (pid : PlayerId)
    (cid : CellId) : Option Role :=
  (roles.find? fun e => e.1.1 == pid && e.1.2 == cid).map (·.2)

/-- The `for (const [cellId, playerIds] of byCell)` loop: single claimants
that pass the cell/player/die/role checks go to `toApply`, multi-claimant
cells become `cell` conflicts. -/
def computeToApply (grid : List Cell) (players : List Player)
    (byCell : List (CellId × List PlayerId))
    (roles : List ((PlayerId × CellId) × Role)) :
    List ApplyAct × List Conflict :=
  byCell.foldl
    (fun acc cg =>
      match cg.2 with
      | [pid] =>
          match grid.find? (fun c => c.id == cg.1),
                players.find? (fun p => p.playerId == pid),
                roleFor roles pid cg.1 with
          | some cell, some player, some role =>
              if !cell.blocked && player.dice.contains cell.diceValue then
                (acc.1 ++ [⟨pid, cg.1, role⟩], acc.2)
              else acc
          | _, _, _ => acc
      | pids =>
          (acc.1, acc.2 ++ [Conflict.cell ("conflict-" ++ cg.1) cg.1 pids]))
    ([], [])

/-- `playerDicePool`: per player, counts of each die value. -/
def buildPools (players : List Player) : List (PlayerId × List (Int × Nat)) :=
  players.map fun p =>
    (p.playerId,
     p.dice.foldl
       (fun counts die =>
          match counts.find? (fun e => e.1 == die) with
          | some _ => updateFirst (fun x => x.1 == die) (fun x => (x.1, x.2 + 1)) counts
          | none => counts ++ [(die, 1)])
       [])

/-- `pool?.get(v) ?? 0`. -/
def poolCount (pools : List (PlayerId × List (Int × Nat))) (pid : PlayerId)
    (v : Int) : Nat :=
  match assocLookup pid pools with
  | some counts => ((counts.find? fun e => e.1 == v).map (·.2)).getD 0
  | none => 0

/-- `pool.set(v, left − 1)` for the player's pool. -/
def poolDec (pools : List (PlayerId × List (Int × Nat))) (pid : PlayerId)
    (v : Int) : List (PlayerId × List (Int × Nat)) :=
  updateFirst (fun e => e.1 == pid)
    (fun e => (e.1, updateFirst (fun x => x.1 == v) (fun x => (x.1, x.2 - 1)) e.2))
    pools

/-- The `filteredToApply` loop: walk the queued claims in order, keep a
claim only while its player still has an unspent die of the cell's value,
decrementing the pool (claims whose cell vanished are skipped, as in the
source's `continue`). -/
def dicePoolFilter (grid : List Cell)
    (pools : List (PlayerId × List (Int × Nat))) :
    List ApplyAct → List ApplyAct
  | [] => []
  | act :: rest =>
      match grid.find? (fun c => c.id == act.cellId) with
      | none => dicePoolFilter grid pools rest
      | some cell =>
          let left := poolCount pools act.playerId cell.diceValue
          if left = 0 then dicePoolFilter grid pools rest
          else act :: dicePoolFilter grid (poolDec pools act.playerId cell.diceValue) rest

/-- One pass of the commit loop: push the ownership record and remove the
first die of the cell's value from the player's hand (the source asserts
the cell and player exist with `!`; a missing one is skipped here). -/
def commitStep (pg : List Player × List Cell) (act : ApplyAct) :
    List Player × List Cell :=
  match pg.2.find? (fun c => c.id == act.cellId),
        pg.1.find? (fun p => p.playerId == act.playerId) with
  | some cell, some _ =>
      (updateFirst (fun p => p.playerId == act.playerId)
         (fun p =>
           if p.dice.contains cell.diceValue then
             { p with dice := p.dice.erase cell.diceValue }
           else p)
         pg.1,
       updateFirst (fun c => c.id == act.cellId)
         (fun c => { c with owners := c.owners ++ [⟨act.playerId, act.role⟩] })
         pg.2)
  | _, _ => pg

/-- The whole commit loop over the filtered applications. -/
def commitBuys (acts : List ApplyAct) (players : List Player)
    (grid : List Cell) : List Player × List Cell :=
  acts.foldl commitStep (players, grid)

/-- `computeAutoPathReady`: players lacking an owned producer cell or an
owned seller cell are marked ready immediately. -/
def computeAutoPathReady (players : List Player) (grid : List Cell) :
    List (PlayerId × Bool) :=
  players.foldl
    (fun ready p =>
      let hasProducer := grid.any fun c =>
        c.owners.any fun o => o.playerId == p.playerId && o.role == Role.producer
      let hasSeller := grid.any fun c =>
        c.owners.any fun o => o.playerId == p.playerId && o.role == Role.seller
      if !hasProducer || !hasSeller then ready ++ [(p.playerId, true)] else ready)
    []

/-- The whole `buy_phase` branch of `alarm`: group claims, split into
single-claimant applications and conflicts, filter the applications
through the per-player dice pools, commit the survivors, then either enter
the auction (keeping `pending.buy` for the declared roles) or move to
`path_phase` with the auto-ready set. -/
def resolveBuyPhase (st : RoomState) : RoomState :=
  let bc := buildByCell st.pendingBuy
  let ta := computeToApply st.grid st.players bc.1 bc.2
  let filtered := dicePoolFilter st.grid (buildPools st.players) ta.1
  let pg := commitBuys filtered st.players st.grid
  if ta.2.isEmpty then
    { clearPending st with
        phase := .path_phase
        players := pg.1
        grid := pg.2
        pendingPathReady := computeAutoPathReady pg.1 pg.2 }
  else
    { st with
        phase := .auction
        players := pg.1
        grid := pg.2
        conflicts := ta.2
        auctionBids := [] }

/-! ## Auction resolution (`alarm`, `config.phase === 'auction'`) -/

/-- `bids[pid] ?? 0`. -/
def bidOf (bids : List (PlayerId × Int)) (pid : PlayerId) : Int :=
  (assocLookup pid bids).getD 0

/-- The `bestBid` scan over the conflict's contenders, starting from 0. -/
def auctionBestBid (bids : List (PlayerId × Int)) (pids : List PlayerId) : Int :=
  pids.foldl (fun best pid => if bidOf bids pid > best then bidOf bids pid else best) 0

/-- The `cell`-conflict winner loop, carried out on the players list and
the contested cell's owners (the source mutates the found cell object in
place): every tied top bidder that exists, is solvent, declared a role for
the cell and still holds a matching die gains co-ownership, pays the best
bid and loses one such die. -/
def cellConflictStep (cell : Cell) (bestBid : Int)
    (pendingBuy : List (PlayerId × List BuyAct))
    (acc : List Player × List CellOwner) (pid : PlayerId) :
    List Player × List CellOwner :=
  match acc.1.find? (fun p => p.playerId == pid),
        ((assocLookup pid pendingBuy).getD []).find? (fun a => a.cellId == cell.id) with
  | some player, some act =>
      if player.money < bestBid then acc
      else if player.dice.contains cell.diceValue then
        (updateFirst (fun p => p.playerId == pid)
           (fun p => { p with money := p.money - bestBid,
                              dice := p.dice.erase cell.diceValue }) acc.1,
         acc.2 ++ [⟨pid, act.role⟩])
      else acc
  | _, _ => acc

def runCellConflict (cell : Cell) (bestBid : Int)
    (pendingBuy : List (PlayerId × List BuyAct)) (winners : List PlayerId)
    (players : List Player) : List Player × List CellOwner :=
  winners.foldl (cellConflictStep cell bestBid pendingBuy) (players, cell.owners)

/-- One conflict of the `for (const c of pending.conflicts)` loop. -/
def resolveOneConflict (auctionBids : List (String × List (PlayerId × Int)))
    (pendingBuy : List (PlayerId × List BuyAct))
    (acc : List Player × List Cell × List Int) (c : Conflict) :
    List Player × List Cell × List Int :=
  let (players, grid, marketDice) := acc
  match c with
  | .market conflictId dieIndex pids =>
      let bids := (assocLookup conflictId auctionBids).getD []
      let bestBid := auctionBestBid bids pids
      let bestPlayer? :=
        (pids.find? fun pid => bidOf bids pid == bestBid).orElse fun _ => pids.head?
      match bestPlayer? with
      | none => acc
      | some bestPlayer =>
          match players.find? (fun p => p.playerId == bestPlayer) with
          | none => acc
          | some player =>
              if 0 ≤ dieIndex ∧ dieIndex < (marketDice.length : Int) ∧
                 marketDice.getD dieIndex.toNat 0 ≠ -1 ∧ bestBid ≤ player.money then
                (updateFirst (fun p => p.playerId == bestPlayer)
                   (fun p => { p with dice := p.dice ++ [marketDice.getD dieIndex.toNat 0],
                                      money := p.money - bestBid }) players,
                 grid, marketDice.set dieIndex.toNat (-1))
              else acc
  | .cell conflictId cellId pids =>
      let bids := (assocLookup conflictId auctionBids).getD []
      let bestBid := auctionBestBid bids pids
      match grid.find? (fun x => x.id == cellId) with
      | none => acc
      | some cell =>
          let winners := pids.filter fun pid => bidOf bids pid == bestBid
          let (players', owners') := runCellConflict cell bestBid pendingBuy winners players
          (players',
           updateFirst (fun x => x.id == cellId) (fun x => { x with owners := owners' }) grid,
           marketDice)

/-- The whole `auction` branch of `alarm`: resolve every conflict in order,
drop consumed (`-1`) market dice, recompute the auto-ready set and move to
`path_phase`. -/
def resolveAuction (st : RoomState) : RoomState :=
  let r := st.conflicts.foldl (resolveOneConflict st.auctionBids st.pendingBuy)
    (st.players, st.grid, st.marketDice)
  { clearPending st with
      phase := .path_phase
      players := r.1
      grid := r.2.1
      marketDice := r.2.2.filter (· != -1)
      pendingPathReady := computeAutoPathReady r.1 r.2.1 }

/-! ## Ownership aging and the remaining phase steps -/

/-- `GameRoom.applyOwnershipAging`: every owned cell's producer and seller
values decay by 1, floored at 1; ownership itself is untouched. -/
def applyOwnershipAging (grid : List Cell) : List Cell :=
  grid.map fun cell =>
    if cell.owners.isEmpty then cell
    else { cell with producer := max 1 (cell.producer - 1),
                     seller := max 1 (cell.seller - 1) }

/-- The `round_start` branch of `alarm`: age the grid, pay +1 to every
player, pay each entry of `submittedPaths` its stored revenue
(`Math.max(0, Math.floor(revenue))`), replenish the market dice (random
draw supplied by `newMarketDice`) and move to `market_phase`.
`submittedPaths` is left as it is — the source never clears it here. -/
def resolveRoundStart (st : RoomState) (newMarketDice : List Int) : RoomState :=
  let grid := applyOwnershipAging st.grid
  let players := st.players.map fun p => { p with money := p.money + 1 }
  let players := st.submittedPaths.foldl
    (fun ps e =>
      updateFirst (fun p => p.playerId == e.1)
        (fun p => { p with money := p.money + max 0 e.2.revenue }) ps)
    players
  { st with phase := .market_phase, grid := grid, players := players,
            marketDice := newMarketDice }

/-- The `path_phase` branch of `alarm`: players left with no dice are dealt
a fresh hand (`randomDiceArray(3)`, supplied by `fresh`), then `round_end`. -/
def resolvePathPhase (st : RoomState) (fresh : PlayerId → List Int) : RoomState :=
  { st with
      phase := .round_end
      players := st.players.map fun p =>
        if p.dice.isEmpty then { p with dice := fresh p.playerId } else p }

/-- `myCells(pid)`: number of cells with some ownership record of `pid`. -/
def myCellsCount (grid : List Cell) (pid : PlayerId) : Nat :=
  (grid.filter fun c => c.owners.any fun o => o.playerId == pid).length

/-- The winner scan: highest money, ties broken by owned-cell count (the
source starts from `players[0]` and rescans the whole list). -/
def computeWinner (players : List Player) (grid : List Cell) : Option PlayerId :=
  match players with
  | [] => none
  | p0 :: _ =>
      some (players.foldl
        (fun best p =>
          if p.money > best.money then p
          else if p.money == best.money ∧
                  myCellsCount grid best.playerId < myCellsCount grid p.playerId then p
          else best)
        p0).playerId

/-- The `round_end` branch of `alarm`: last round ⇒ `ended` with the winner
recorded; otherwise reset the (write-only) path-usage ledger, advance the
round index, replenish the market dice and return to `round_start`. -/
def resolveRoundEnd (st : RoomState) (newMarketDice : List Int) : RoomState :=
  let roundIndex := st.roundIndex + 1
  if st.roundCount ≤ roundIndex then
    { st with phase := .ended, roundIndex := roundIndex,
              winnerId := computeWinner st.players st.grid }
  else
    { st with phase := .round_start, roundIndex := roundIndex,
              marketDice := newMarketDice }

/-- `GameRoom.alarm()`: dispatch on the current phase.  In the source the
timer (or an early all-players-ready trigger inside a handler) decides when
this runs; here it is a step that may be taken at any time, which covers
every real schedule.  `lobby` and `ended` resolve to nothing observable in
this model (the `ended` branch only tears the room down). -/
def alarmStep (st : RoomState) (newMarketDice : List Int)
    (fresh : PlayerId → List Int) : RoomState :=
  match st.phase with
  | .round_start => resolveRoundStart st newMarketDice
  | .market_phase => resolveMarketPhase st
  | .buy_phase => resolveBuyPhase st
  | .auction => resolveAuction st
  | .path_phase => resolvePathPhase st fresh
  | .round_end => resolveRoundEnd st newMarketDice
  | _ => st

/-! ## Player-action handlers (`webSocketMessage` dispatch targets)

Each handler takes the submitter's `playerId` (the connection attachment;
the source's "Not joined" guard is the identity layer above these) and
returns the new state together with the messages sent: `sendTo` payloads
for the submitter and `.broadcast` for the state broadcast.  The early
`alarm()` trigger some handlers fire when every player is ready is modelled
by the separately applicable `alarmStep`. -/

def Conflict.conflictId : Conflict → String
  | .cell cid _ _ => cid
  | .market cid _ _ => cid

def Conflict.playerIds : Conflict → List PlayerId
  | .cell _ _ pids => pids
  | .market _ _ pids => pids

/-- `GameRoom.handleJoin` (lobby only; the fresh random id is supplied). -/
def handleJoin (st : RoomState) (pid : PlayerId) : RoomState × List OutMsg :=
  if st.phase ≠ .lobby then (st, [])
  else
    ({ st with players := st.players ++ [⟨pid, 0, []⟩] },
     [.joined pid, .broadcast])

/-- `GameRoom.handleStartGame`.  `blockedCount` is
`Math.min(15, Math.max(5, Math.floor(minCells * 0.1)))`; for the integer
`minCells` the float product floors to `minCells / 10`.  The random draws
(grid values, each player's 3-die starting hand, the `players.length − 1`
market dice) are supplied by the oracle arguments. -/
def handleStartGame (st : RoomState) (blockedIdx : List Nat)
    (diceVals prodVals sellVals : Nat → Int) (hands : Nat → List Int)
    (marketDice : List Int) : RoomState × List OutMsg :=
  if st.phase ≠ .lobby ∨ st.players.length < 2 then
    (st, [.error "Need at least 2 players"])
  else
    let minCells := st.players.length * st.roundCount
    let blockedCount := min 15 (max 5 (minCells / 10))
    let grid := generateGrid minCells blockedCount blockedIdx diceVals prodVals sellVals
    let players := st.players.enum.map fun ip =>
      { ip.2 with money := 10, dice := hands ip.1 }   -- STARTING_MONEY
    ({ clearPending st with
         phase := .round_start
         roundIndex := 0
         marketDice := marketDice
         marketMinPrice := 1
         players := players
         grid := grid
         submittedPaths := [] },
     [.broadcast])

/-- `GameRoom.handleMarketBid`. -/
def handleMarketBid (st : RoomState) (pid : PlayerId) (dieIndex amount : Int) :
    RoomState × List OutMsg :=
  if st.phase ≠ .market_phase then (st, [.broadcast])
  else if dieIndex < 0 ∨ (st.marketDice.length : Int) ≤ dieIndex then (st, [])
  else if amount < st.marketMinPrice then (st, [])
  else
    ({ st with pendingMarket := assocSet pid ⟨dieIndex, amount⟩ st.pendingMarket,
               pendingMarketSkip := assocErase pid st.pendingMarketSkip },
     [.broadcast])

/-- `GameRoom.handleMarketSkip`. -/
def handleMarketSkip (st : RoomState) (pid : PlayerId) :
    RoomState × List OutMsg :=
  if st.phase ≠ .market_phase then (st, [.broadcast])
  else
    ({ st with pendingMarket := assocErase pid st.pendingMarket,
               pendingMarketSkip := assocSet pid true st.pendingMarketSkip },
     [.broadcast])

/-- `GameRoom.handleMarketRecycle`: discard an owned die for a flat +3. -/
def handleMarketRecycle (st : RoomState) (pid : PlayerId) (dieIndex : Int) :
    RoomState × List OutMsg :=
  if st.phase ≠ .market_phase then (st, [])
  else
    match st.players.find? (fun p => p.playerId == pid) with
    | none => (st, [])
    | some player =>
        if dieIndex < 0 ∨ (player.dice.length : Int) ≤ dieIndex then
          (st, [.error "Invalid die selected for recycle."])
        else
          let players' := updateFirst (fun p => p.playerId == pid)
            (fun p => { p with dice := p.dice.eraseIdx dieIndex.toNat,
                               money := p.money + 3 }) st.players
          ({ st with players := players' }, [.broadcast])

/-- The queue rebuild of `handleBuyCell`: keep only actions whose target
exists, is unblocked and still has an unspent matching die in the player's
pool. -/
def rebuildQueue (grid : List Cell) (pool : List (Int × Nat)) :
    List BuyAct → List BuyAct
  | [] => []
  | act :: rest =>
      match grid.find? (fun c => c.id == act.cellId) with
      | none => rebuildQueue grid pool rest
      | some target =>
          if target.blocked then rebuildQueue grid pool rest
          else
            let left := ((pool.find? fun e => e.1 == target.diceValue).map (·.2)).getD 0
            if left = 0 then rebuildQueue grid pool rest
            else act :: rebuildQueue grid
              (updateFirst (fun x => x.1 == target.diceValue)
                (fun x => (x.1, x.2 - 1)) pool) rest

/-- The per-player dice pool of `handleBuyCell` (`dicePool`). -/
def dicePoolOf (dice : List Int) : List (Int × Nat) :=
  dice.foldl
    (fun counts die =>
      match counts.find? (fun e => e.1 == die) with
      | some _ => updateFirst (fun x => x.1 == die) (fun x => (x.1, x.2 + 1)) counts
      | none => counts ++ [(die, 1)])
    []

/-- `GameRoom.handleBuyCell`. -/
def handleBuyCell (st : RoomState) (pid : PlayerId) (cellId : CellId)
    (role : Role) : RoomState × List OutMsg :=
  if st.phase ≠ .buy_phase then (st, [.broadcast])
  else
    match st.grid.find? (fun c => c.id == cellId),
          st.players.find? (fun p => p.playerId == pid) with
    | some cell, some player =>
        if cell.blocked ∨ ¬player.dice.contains cell.diceValue then
          (st, [.error "Invalid buy"])
        else
          let current := (assocLookup pid st.pendingBuy).getD []
          let candidate := (current.filter fun a => a.cellId ≠ cellId) ++ [⟨cellId, role⟩]
          let nextQueued := rebuildQueue st.grid (dicePoolOf player.dice) candidate
          if ¬nextQueued.any (fun a => a.cellId == cellId) then
            (st, [.error ("You can only queue as many " ++ toString cell.diceValue
                          ++ "s as dice you own.")])
          else
            ({ st with pendingBuy := assocSet pid nextQueued st.pendingBuy,
                       pendingBuyDone := assocErase pid st.pendingBuyDone },
             [.broadcast])
    | _, _ => (st, [.error "Invalid buy"])

/-- `GameRoom.handleBuyCellCancel`. -/
def handleBuyCellCancel (st : RoomState) (pid : PlayerId) (cellId : CellId) :
    RoomState × List OutMsg :=
  if st.phase ≠ .buy_phase then (st, [.broadcast])
  else
    let remaining := ((assocLookup pid st.pendingBuy).getD []).filter
      fun a => a.cellId ≠ cellId
    ({ st with
         pendingBuy :=
           if remaining.isEmpty then assocErase pid st.pendingBuy
           else assocSet pid remaining st.pendingBuy,
         pendingBuyDone := assocErase pid st.pendingBuyDone },
     [.broadcast])

/-- `GameRoom.handleBuyDone`. -/
def handleBuyDone (st : RoomState) (pid : PlayerId) : RoomState × List OutMsg :=
  if st.phase ≠ .buy_phase then (st, [.broadcast])
  else
    ({ st with pendingBuyDone := assocSet pid true st.pendingBuyDone },
     [.broadcast])

/-- `GameRoom.handleAuctionBid`: only contenders of an existing conflict
may bid; the stored amount is clamped at 0; resubmission overwrites. -/
def handleAuctionBid (st : RoomState) (pid : PlayerId) (conflictId : String)
    (amount : Int) : RoomState × List OutMsg :=
  if st.phase ≠ .auction then (st, [])
  else
    match st.conflicts.find?
        (fun c => c.conflictId == conflictId && c.playerIds.contains pid) with
    | none => (st, [])
    | some _ =>
        let byPlayer := (assocLookup conflictId st.auctionBids).getD []
        ({ st with auctionBids :=
             assocSet conflictId (assocSet pid (max 0 amount) byPlayer) st.auctionBids },
         [.broadcast])

/-- Coordinates of the blocked cells (`blockedSet` keyed by `axialKey`,
which identifies a hex exactly by its coordinates). -/
def blockedCoordsOf (grid : List Cell) : List Axial :=
  (grid.filter (·.blocked)).map fun c => ⟨c.q, c.r⟩

/-- The contiguity/blockage loop of `handlePath` over consecutive hexes:
first failing pair wins, adjacency checked before blockage of the target. -/
def checkPathSegments (blockedCoords : List Axial) : List Axial → Option String
  | a :: b :: rest =>
      if ¬(axialNeighbors a).any (fun n => n.q == b.q && n.r == b.r) then
        some "Path not contiguous"
      else if blockedCoords.contains b then some "Path crosses blocked cell"
      else checkPathSegments blockedCoords (b :: rest)
  | _ => none

/-- `GameRoom.handlePath`: validate ownership of the endpoints, the
endpoint coordinates, contiguity and blockage; then compute and store the
revenue with the submission and clear the submitter's auto-ready flag. -/
def handlePath (st : RoomState) (pid : PlayerId) (producerId sellerId : CellId)
    (path : List Axial) : RoomState × List OutMsg :=
  if st.phase ≠ .path_phase then (st, [])
  else
    match st.grid.find? (fun c => c.id == producerId) with
    | none => (st, [])
    | some producer =>
        if ¬producer.owners.any (fun o => o.playerId == pid && o.role == Role.producer) then
          (st, [])
        else
          match st.grid.find? (fun c => c.id == sellerId) with
          | none => (st, [])
          | some seller =>
              if ¬seller.owners.any (fun o => o.playerId == pid && o.role == Role.seller) then
                (st, [])
              else if path.length < 2 ∨
                  ¬axialEquals (path.headD ⟨0, 0⟩) ⟨producer.q, producer.r⟩ ∨
                  ¬axialEquals (path.getLastD ⟨0, 0⟩) ⟨seller.q, seller.r⟩ then
                (st, [.error "Invalid path endpoints"])
              else
                match checkPathSegments (blockedCoordsOf st.grid) path with
                | some msg => (st, [.error msg])
                | none =>
                    let revenue := computePathRevenue st.grid pid producer seller path
                    ({ st with
                         submittedPaths :=
                           assocSet pid ⟨producerId, sellerId, path, revenue⟩
                             st.submittedPaths,
                         pendingPathReady := assocErase pid st.pendingPathReady },
                     [.pathRevenue revenue, .broadcast])

/-- `GameRoom.handlePathDone`. -/
def handlePathDone (st : RoomState) (pid : PlayerId) : RoomState × List OutMsg :=
  if st.phase ≠ .path_phase then (st, [.broadcast])
  else
    ({ st with pendingPathReady := assocSet pid true st.pendingPathReady },
     [.broadcast])

/-- The per-player inbound message types of the wire protocol. -/
inductive Action where
  | marketBid (dieIndex amount : Int)
  | marketSkip
  | marketRecycle (dieIndex : Int)
  | buyCell (cellId : CellId) (role : Role)
  | buyCellCancel (cellId : CellId)
  | buyDone
  | auctionBid (conflictId : String) (amount : Int)
  | path (producerId sellerId : CellId) (path : List Axial)
  | pathDone
deriving DecidableEq, Repr

/-- The phase an action is addressed to. -/
def Action.targetPhase : Action → Phase
  | .marketBid _ _ => .market_phase
  | .marketSkip => .market_phase
  | .marketRecycle _ => .market_phase
  | .buyCell _ _ => .buy_phase
  | .buyCellCancel _ => .buy_phase
  | .buyDone => .buy_phase
  | .auctionBid _ _ => .auction
  | .path _ _ _ => .path_phase
  | .pathDone => .path_phase

/-- The `webSocketMessage` dispatch for per-player game actions. -/
def handle (st : RoomState) (pid : PlayerId) : Action → RoomState × List OutMsg
  | .marketBid dieIndex amount => handleMarketBid st pid dieIndex amount
  | .marketSkip => handleMarketSkip st pid
  | .marketRecycle dieIndex => handleMarketRecycle st pid dieIndex
  | .buyCell cellId role => handleBuyCell st pid cellId role
  | .buyCellCancel cellId => handleBuyCellCancel st pid cellId
  | .buyDone => handleBuyDone st pid
  | .auctionBid conflictId amount => handleAuctionBid st pid conflictId amount
  | .path producerId sellerId p => handlePath st pid producerId sellerId p
  | .pathDone => handlePathDone st pid

/-- Number of `error` payloads in a message list. -/
def countErrors (msgs : List OutMsg) : Nat :=
  msgs.countP fun m => match m with | .error _ => true | _ => false

/-! ## Reachable room states -/

/-- The states a room can be in: the initial lobby, then any interleaving
of joins, a game start, player actions and phase resolutions (the latter
applicable at any time, covering every timer schedule; random draws are
universally quantified oracles). -/
inductive Reachable : RoomState → Prop where
  | init (roundCount : Nat) : Reachable (initialState roundCount)
  | join (st : RoomState) (pid : PlayerId) :
      Reachable st → Reachable (handleJoin st pid).1
  | startGame (st : RoomState) (blockedIdx : List Nat)
      (diceVals prodVals sellVals : Nat → Int) (hands : Nat → List Int)
      (marketDice : List Int) :
      Reachable st →
      Reachable (handleStartGame st blockedIdx diceVals prodVals sellVals
        hands marketDice).1
  | action (st : RoomState) (pid : PlayerId) (a : Action) :
      Reachable st → Reachable (handle st pid a).1
  | alarm (st : RoomState) (newMarketDice : List Int)
      (fresh : PlayerId → List Int) :
      Reachable st → Reachable (alarmStep st newMarketDice fresh)

/-! ## Derived notions used by the statements -/

/-- Two grids with pointwise equal ids and blocked flags (cell lookups by
id then agree on blockedness). -/
def sameShape (g g' : List Cell) : Prop :=
  List.Forall₂ (fun c c' => c.id = c'.id ∧ c.blocked = c'.blocked) g g'

/-- A cell-id reference whose (first) resolution in the grid, if any, is an
unblocked cell. -/
def cellUnblockedRef (grid : List Cell) (cid : CellId) : Prop :=
  ∀ c, grid.find? (fun c => c.id == cid) = some c → c.blocked = false

/-- The inductive room invariant: blocked cells have no owners, every
queued buy and every cell-type conflict references an unblocked cell, and
every player's money is non-negative. -/
structure Inv (st : RoomState) : Prop where
  blockedFree : ∀ c ∈ st.grid, c.blocked = true → c.owners = []
  buyRefs : ∀ pb ∈ st.pendingBuy, ∀ a ∈ pb.2, cellUnblockedRef st.grid a.cellId
  conflictRefs : ∀ cid cellId pids,
    Conflict.cell cid cellId pids ∈ st.conflicts → cellUnblockedRef st.grid cellId
  moneyNonneg : ∀ p ∈ st.players, 0 ≤ p.money

/-! ## Concrete demonstration inputs -/

/-- A producer cell of value 9 owned by `P1` (producer role). -/
def c1ProdCell : Cell := ⟨"prod", 0, 0, 1, 9, 1, false, [⟨"P1", .producer⟩]⟩

/-- A seller cell of value 9 owned by `P1`, three steps from the producer. -/
def c1SellCell4 : Cell := ⟨"sell", 3, 0, 1, 1, 9, false, [⟨"P1", .seller⟩]⟩

/-- A seller cell of value 9 owned by `P1`, nine steps from the producer. -/
def c1SellCell10 : Cell := ⟨"sell", 9, 0, 1, 1, 9, false, [⟨"P1", .seller⟩]⟩

/-- A 4-hex straight path (path length 3 edges). -/
def c1Path4 : List Axial := [⟨0, 0⟩, ⟨1, 0⟩, ⟨2, 0⟩, ⟨3, 0⟩]

/-- A 10-hex straight path (path length 9 edges). -/
def c1Path10 : List Axial :=
  [⟨0, 0⟩, ⟨1, 0⟩, ⟨2, 0⟩, ⟨3, 0⟩, ⟨4, 0⟩, ⟨5, 0⟩, ⟨6, 0⟩, ⟨7, 0⟩, ⟨8, 0⟩, ⟨9, 0⟩]

/-- Path-phase room around `c1Path4`. -/
def c1State4 : RoomState :=
  { initialState 3 with
      phase := .path_phase
      players := [⟨"P1", 10, []⟩]
      grid := [c1ProdCell, c1SellCell4] }

/-- Path-phase room around `c1Path10`. -/
def c1State10 : RoomState :=
  { initialState 3 with
      phase := .path_phase
      players := [⟨"P1", 10, []⟩]
      grid := [c1ProdCell, c1SellCell10] }

/-- Market phase with the given players, pool and pending bids. -/
def mkMarketState (players : List Player) (dice : List Int)
    (bids : List (PlayerId × MarketBid)) : RoomState :=
  { initialState 3 with
      phase := .market_phase
      players := players
      marketDice := dice
      pendingMarket := bids }

/-- The specification's tie example: bids `{P1:5, P2:5, P3:3}` on die 0. -/
def c2TieState : RoomState :=
  mkMarketState [⟨"P1", 10, []⟩, ⟨"P2", 10, []⟩, ⟨"P3", 10, []⟩] [4]
    [("P1", ⟨0, 5⟩), ("P2", ⟨0, 5⟩), ("P3", ⟨0, 3⟩)]

/-- The specification's award example: bids `{P1:6, P2:5}` on die 0. -/
def c2AwardState : RoomState :=
  mkMarketState [⟨"P1", 10, []⟩, ⟨"P2", 10, []⟩] [4]
    [("P1", ⟨0, 6⟩), ("P2", ⟨0, 5⟩)]

/-- A unique top bidder whose bid (100) exceeds their money (10). -/
def c2InsolventState : RoomState :=
  mkMarketState [⟨"P1", 10, []⟩] [4] [("P1", ⟨0, 100⟩)]

/-- The cell contested in the auction examples (requires a 5 die). -/
def c3Cell : Cell := ⟨"d", 0, 0, 5, 2, 2, false, []⟩

/-- Auction over one cell conflict: `P1`/`P2` tied at 4, `P3` bid 2. -/
def c3State : RoomState :=
  { initialState 3 with
      phase := .auction
      players := [⟨"P1", 10, [5]⟩, ⟨"P2", 10, [5]⟩, ⟨"P3", 10, [5]⟩]
      grid := [c3Cell]
      pendingBuy := [("P1", [⟨"d", .producer⟩]), ("P2", [⟨"d", .seller⟩]),
                     ("P3", [⟨"d", .producer⟩])]
      conflicts := [.cell "conflict-d" "d" ["P1", "P2", "P3"]]
      auctionBids := [("conflict-d", [("P1", 4), ("P2", 4), ("P3", 2)])] }

/-- Auction over one market conflict with a tie: the first max-bidder in
submission order (`P1`) is the designated winner. -/
def c4State : RoomState :=
  { initialState 3 with
      phase := .auction
      players := [⟨"P1", 10, []⟩, ⟨"P2", 10, []⟩]
      marketDice := [6]
      conflicts := [.market "market-0" 0 ["P1", "P2"]]
      auctionBids := [("market-0", [("P1", 3), ("P2", 3)])] }

/-- Three unblocked cells all requiring a 3 die. -/
def c5CellA : Cell := ⟨"a", 0, 0, 3, 2, 2, false, []⟩
def c5CellB : Cell := ⟨"b", 1, 0, 3, 2, 2, false, []⟩
def c5CellC : Cell := ⟨"c", 2, 0, 3, 2, 2, false, []⟩

/-- Buy phase: `P1` holds dice `[3,3]` and queued all three 3-cells. -/
def c5State : RoomState :=
  { initialState 3 with
      phase := .buy_phase
      players := [⟨"P1", 10, [3, 3]⟩]
      grid := [c5CellA, c5CellB, c5CellC]
      pendingBuy := [("P1", [⟨"a", .producer⟩, ⟨"b", .seller⟩, ⟨"c", .producer⟩])] }

/-- An owned cell with producer 5 and seller 5, for the aging example. -/
def c6Cell : Cell := ⟨"x", 0, 0, 1, 5, 5, false, [⟨"P1", .producer⟩]⟩

/-- Round-start state: `P1` has a stored submitted path of revenue 7. -/
def c7State : RoomState :=
  { initialState 3 with
      phase := .round_start
      players := [⟨"P1", 0, [2]⟩, ⟨"P2", 0, [2]⟩]
      submittedPaths := [("P1", ⟨"p", "s", [], 7⟩)] }

/-- One timer firing with fixed random draws, for the `c7State` trace. -/
def c7Step (st : RoomState) : RoomState :=
  alarmStep st [1] fun _ => [1, 1, 1]

/-- A buy-phase room, the wrong phase for a market bid. -/
def c8State : RoomState :=
  { initialState 3 with
      phase := .buy_phase
      players := [⟨"P1", 10, []⟩] }

/-- Two joins into a fresh 1-round room. -/
def egLobby : RoomState :=
  (handleJoin (handleJoin (initialState 1) "P1").1 "P2").1

/-- The room after `start_game` with fixed random draws: a radius-1 board
of 7 cells, the first five blocked. -/
def exampleReachState : RoomState :=
  (handleStartGame egLobby [0, 1, 2, 3, 4] (fun _ => 1) (fun _ => 2)
    (fun _ => 3) (fun _ => [1, 1, 1]) [4]).1

/-! ## Helper lemmas about the list/record primitives -/

section HelperLemmas

variable {α : Type _} {β : Type _}

theorem updateFirst_cons_pos {p : α → Bool} {f : α → α} {x : α} {xs : List α}
    (h : p x = true) : updateFirst p f (x :: xs) = f x :: xs := by
  simp [updateFirst, h]

theorem updateFirst_cons_neg {p : α → Bool} {f : α → α} {x : α} {xs : List α}
    (h : p x = false) : updateFirst p f (x :: xs) = x :: updateFirst p f xs := by
  simp [updateFirst, h]

theorem mem_updateFirst {p : α → Bool} {f : α → α} {l : List α} {b : α}
    (hb : b ∈ updateFirst p f l) :
    b ∈ l ∨ ∃ a, l.find? p = some a ∧ b = f a := by
  induction l with
  | nil => simp [updateFirst] at hb
  | cons x xs ih =>
      cases hx : p x with
      | true =>
          rw [updateFirst_cons_pos hx] at hb
          rcases List.mem_cons.mp hb with h | h
          · exact Or.inr ⟨x, by rw [List.find?_cons_of_pos _ hx], h⟩
          · exact Or.inl (List.mem_cons_of_mem _ h)
      | false =>
          rw [updateFirst_cons_neg hx] at hb
          rcases List.mem_cons.mp hb with h | h
          · exact Or.inl (h ▸ List.mem_cons_self x xs)
          · rcases ih h with h' | ⟨a, ha, hba⟩
            · exact Or.inl (List.mem_cons_of_mem _ h')
            · refine Or.inr ⟨a, ?_, hba⟩
              rw [List.find?_cons_of_neg _ (by simp [hx])]
              exact ha

theorem find?_updateFirst_self {p : α → Bool} {f : α → α} {l : List α}
    (hkeep : ∀ a, p a = true → p (f a) = true) :
    (updateFirst p f l).find? p = (l.find? p).map f := by
  induction l with
  | nil => simp [updateFirst]
  | cons x xs ih =>
      cases hx : p x with
      | true =>
          rw [updateFirst_cons_pos hx, List.find?_cons_of_pos _ (hkeep x hx),
              List.find?_cons_of_pos _ hx]
          rfl
      | false =>
          rw [updateFirst_cons_neg hx, List.find?_cons_of_neg _ (by simp [hx]),
              List.find?_cons_of_neg _ (by simp [hx])]
          exact ih

theorem find?_updateFirst_other {p q : α → Bool} {f : α → α} {l : List α}
    (hdisj : ∀ a, p a = true → q a = false)
    (hq : ∀ a, q (f a) = q a) :
    (updateFirst p f l).find? q = l.find? q := by
  induction l with
  | nil => simp [updateFirst]
  | cons x xs ih =>
      cases hx : p x with
      | true =>
          have hqx : q x = false := hdisj x hx
          have hqfx : q (f x) = false := by rw [hq]; exact hqx
          rw [updateFirst_cons_pos hx, List.find?_cons_of_neg _ (by simp [hqfx]),
              List.find?_cons_of_neg _ (by simp [hqx])]
      | false =>
          cases hqx : q x with
          | true =>
              rw [updateFirst_cons_neg hx, List.find?_cons_of_pos _ hqx,
                  List.find?_cons_of_pos _ hqx]
          | false =>
              rw [updateFirst_cons_neg hx, List.find?_cons_of_neg _ (by simp [hqx]),
                  List.find?_cons_of_neg _ (by simp [hqx])]
              exact ih

theorem forall_mem_updateFirst {P : α → Prop} {p : α → Bool} {f : α → α}
    {l : List α} (h : ∀ b ∈ l, P b) (hf : ∀ b ∈ l, P b → P (f b)) :
    ∀ b ∈ updateFirst p f l, P b := by
  intro b hb
  rcases mem_updateFirst hb with h' | ⟨c, hc, rfl⟩
  · exact h b h'
  · have hcl : c ∈ l := List.mem_of_find?_eq_some hc
    exact hf c hcl (h c hcl)

theorem forall_mem_updateFirst_of_find? {P : α → Prop} {p : α → Bool} {f : α → α}
    {l : List α} {a : α} (hfind : l.find? p = some a)
    (h : ∀ b ∈ l, P b) (hfa : P (f a)) : ∀ b ∈ updateFirst p f l, P b := by
  intro b hb
  rcases mem_updateFirst hb with h' | ⟨c, hc, rfl⟩
  · exact h b h'
  · rw [hfind] at hc
    cases hc
    exact hfa

theorem foldl_preserve {P : β → Prop} {f : β → α → β} {l : List α} {b : β}
    (hb : P b) (hf : ∀ c a, a ∈ l → P c → P (f c a)) : P (l.foldl f b) := by
  induction l generalizing b with
  | nil => exact hb
  | cons x xs ih =>
      exact ih (hf b x (List.mem_cons_self x xs) hb)
        (fun c a ha hc => hf c a (List.mem_cons_of_mem _ ha) hc)

theorem assocLookup_assocSet_self (k : String) (v : α) (l : List (String × α)) :
    assocLookup k (assocSet k v l) = some v := by
  induction l with
  | nil => simp [assocSet, assocLookup]
  | cons e rest ih =>
      obtain ⟨k', v'⟩ := e
      by_cases h : k' = k
      · simp [assocSet, assocLookup, h]
      · simp [assocSet, assocLookup, h, ih]

theorem mem_of_assocLookup_eq_some {k : String} {v : α} {l : List (String × α)}
    (h : assocLookup k l = some v) : (k, v) ∈ l := by
  induction l with
  | nil => simp [assocLookup] at h
  | cons e rest ih =>
      obtain ⟨k', v'⟩ := e
      by_cases hk : k' = k
      · subst hk
        simp [assocLookup] at h
        subst h
        exact List.mem_cons_self _ _
      · simp [assocLookup, hk] at h
        exact List.mem_cons_of_mem _ (ih h)

theorem mem_assocSet {k : String} {v : α} {l : List (String × α)}
    {e : String × α} (he : e ∈ assocSet k v l) : e = (k, v) ∨ e ∈ l := by
  induction l with
  | nil => simpa [assocSet] using he
  | cons x rest ih =>
      obtain ⟨k', v'⟩ := x
      by_cases hk : k' = k
      · simp [assocSet, hk] at he
        rcases he with h | h
        · exact Or.inl (by simp [h])
        · exact Or.inr (List.mem_cons_of_mem _ h)
      · simp [assocSet, hk] at he
        rcases he with h | h
        · exact Or.inr (by simp [h])
        · rcases ih h with h' | h'
          · exact Or.inl h'
          · exact Or.inr (List.mem_cons_of_mem _ h')

theorem mem_assocErase {k : String} {l : List (String × α)} {e : String × α}
    (he : e ∈ assocErase k l) : e ∈ l := by
  induction l with
  | nil => simp [assocErase] at he
  | cons x rest ih =>
      obtain ⟨k', v'⟩ := x
      by_cases hk : k' = k
      · simp [assocErase, hk] at he
        exact List.mem_cons_of_mem _ he
      · simp [assocErase, hk] at he
        rcases he with h | h
        · simp [h]
        · exact List.mem_cons_of_mem _ (ih h)

end HelperLemmas

/-! ## Shape-preserving grid rewrites -/

theorem sameShape_refl (g : List Cell) : sameShape g g :=
  List.forall₂_same.mpr fun _ _ => ⟨rfl, rfl⟩

theorem sameShape_trans {g₁ g₂ g₃ : List Cell}
    (h₁ : sameShape g₁ g₂) (h₂ : sameShape g₂ g₃) : sameShape g₁ g₃ := by
  induction h₁ generalizing g₃ with
  | nil => cases h₂; exact List.Forall₂.nil
  | cons hx hrest ih =>
      cases h₂ with
      | cons hy hrest' =>
          exact List.Forall₂.cons ⟨hx.1.trans hy.1, hx.2.trans hy.2⟩ (ih hrest')

theorem find?_of_sameShape {g g' : List Cell} (h : sameShape g g')
    {cid : CellId} {c' : Cell}
    (hf : g'.find? (fun c => c.id == cid) = some c') :
    ∃ c, g.find? (fun c => c.id == cid) = some c ∧
      c.id = c'.id ∧ c.blocked = c'.blocked := by
  induction h with
  | nil => simp at hf
  | @cons a b l₁ l₂ hab hrest ih =>
      by_cases hid : b.id = cid
      · have ha : a.id = cid := hab.1.trans hid
        rw [List.find?_cons_of_pos _ (by simpa using hid)] at hf
        cases hf
        exact ⟨a, by rw [List.find?_cons_of_pos _ (by simpa using ha)], hab.1, hab.2⟩
      · have ha : ¬a.id = cid := fun hc => hid (hab.1.symm.trans hc)
        rw [List.find?_cons_of_neg _ (by simpa using hid)] at hf
        obtain ⟨c, hc, hcc⟩ := ih hf
        exact ⟨c, by rw [List.find?_cons_of_neg _ (by simpa using ha)]; exact hc, hcc⟩

theorem cellUnblockedRef_of_sameShape {g g' : List Cell} (h : sameShape g g')
    {cid : CellId} (hr : cellUnblockedRef g cid) : cellUnblockedRef g' cid := by
  intro c' hc'
  obtain ⟨c, hc, _, hbl⟩ := find?_of_sameShape h hc'
  rw [← hbl]
  exact hr c hc

theorem sameShape_updateFirst (p : Cell → Bool) (f : Cell → Cell)
    (g : List Cell) (hf : ∀ c, (f c).id = c.id ∧ (f c).blocked = c.blocked) :
    sameShape g (updateFirst p f g) := by
  induction g with
  | nil => exact List.Forall₂.nil
  | cons x xs ih =>
      cases hx : p x with
      | true =>
          rw [updateFirst_cons_pos hx]
          exact List.Forall₂.cons ⟨(hf x).1.symm, (hf x).2.symm⟩ (sameShape_refl xs)
      | false =>
          rw [updateFirst_cons_neg hx]
          exact List.Forall₂.cons ⟨rfl, rfl⟩ ih

theorem sameShape_aging (g : List Cell) : sameShape g (applyOwnershipAging g) := by
  induction g with
  | nil => exact List.Forall₂.nil
  | cons x xs ih =>
      refine List.Forall₂.cons ?_ ih
      by_cases h : x.owners.isEmpty <;> simp [applyOwnershipAging, h]

/-! ## C1 — the path revenue stored with a submission -/

/-- The code's revenue computation agrees with the specification's formula
(the two extract the interior hexes in different but equal ways). -/
theorem computePathRevenue_eq_spec (grid : List Cell) (pid : PlayerId)
    (producer seller : Cell) (path : List Axial) :
    computePathRevenue grid pid producer seller path
      = specPathRevenue grid pid producer seller path := by
  have hint : (path.take (path.length - 1)).drop 1 = (path.drop 1).dropLast := by
    rw [List.drop_take, List.dropLast_eq_take]
    simp
  unfold computePathRevenue specPathRevenue clamp enemyTerritoryCount
  rw [hint]

/-- **C1**: for every valid submitted path of `N` hexes from producer cell
`P` to seller cell `S`, the revenue stored with the submission equals
`floor(P.producer * max(0, min(S.seller - (N-1) - 2*enemyTerritory, 1)))`,
with `enemyTerritory` the number of interior path hexes whose cell has at
least one owner other than the submitter.  The hypotheses are exactly the
validity checks `handlePath` performs before storing. -/
theorem pathRevenue_stored_as_specified
    (st : RoomState) (pid : PlayerId) (producerId sellerId : CellId)
    (path : List Axial) (producer seller : Cell)
    (hphase : st.phase = .path_phase)
    (hprod : st.grid.find? (fun c => c.id == producerId) = some producer)
    (hprodOwn : producer.owners.any
      (fun o => o.playerId == pid && o.role == Role.producer) = true)
    (hsell : st.grid.find? (fun c => c.id == sellerId) = some seller)
    (hsellOwn : seller.owners.any
      (fun o => o.playerId == pid && o.role == Role.seller) = true)
    (hlen : 2 ≤ path.length)
    (hhead : axialEquals (path.headD ⟨0, 0⟩) ⟨producer.q, producer.r⟩ = true)
    (hlast : axialEquals (path.getLastD ⟨0, 0⟩) ⟨seller.q, seller.r⟩ = true)
    (hseg : checkPathSegments (blockedCoordsOf st.grid) path = none) :
    assocLookup pid (handlePath st pid producerId sellerId path).1.submittedPaths
      = some ⟨producerId, sellerId, path,
          specPathRevenue st.grid pid producer seller path⟩ := by
  unfold handlePath
  rw [hphase, hprod, hsell]
  simp at hhead hlast
  simp only [hprodOwn, hsell, hsellOwn, hseg, Nat.not_lt.mpr hlen]
  simp [hhead, hlast, Nat.not_lt.mpr hlen, assocLookup_assocSet_self,
    computePathRevenue_eq_spec]

/-- Witness for `pathRevenue_stored_as_specified`, also checking the
specification's numeric examples: producer 9, seller 9, path length 3,
no enemy territory ⇒ revenue 9; path length 9 ⇒ revenue 0. -/
theorem pathRevenue_stored_witness :
    assocLookup "P1" (handlePath c1State4 "P1" "prod" "sell" c1Path4).1.submittedPaths
        = some ⟨"prod", "sell", c1Path4, 9⟩
    ∧ assocLookup "P1" (handlePath c1State10 "P1" "prod" "sell" c1Path10).1.submittedPaths
        = some ⟨"prod", "sell", c1Path10, 0⟩ := by
  constructor
  · have h := pathRevenue_stored_as_specified c1State4 "P1" "prod" "sell" c1Path4
      c1ProdCell c1SellCell4 rfl (by decide) (by decide) (by decide) (by decide)
      (by decide) (by decide) (by decide) (by decide)
    have hv : specPathRevenue c1State4.grid "P1" c1ProdCell c1SellCell4 c1Path4 = 9 := by
      decide
    rw [hv] at h
    exact h
  · have h := pathRevenue_stored_as_specified c1State10 "P1" "prod" "sell" c1Path10
      c1ProdCell c1SellCell10 rfl (by decide) (by decide) (by decide) (by decide)
      (by decide) (by decide) (by decide) (by decide)
    have hv : specPathRevenue c1State10.grid "P1" c1ProdCell c1SellCell10 c1Path10 = 0 := by
      decide
    rw [hv] at h
    exact h

/-! ## C2 — market-phase resolution -/

theorem market_unique_winner_awarded
    (st : MarketResolveSt) (d : Int) (bids : List (PlayerId × Int))
    (w : PlayerId) (player : Player)
    (hd0 : 0 ≤ d) (hdlen : d < (st.marketDice.length : Int))
    (hw : topBidders bids = [w])
    (hp : st.players.find? (fun p => p.playerId == w) = some player)
    (hsolv : bestBidOf bids ≤ player.money) :
    (resolveDieGroup st d bids).players.find? (fun p => p.playerId == w)
        = some { player with
                   money := player.money - bestBidOf bids
                   dice := player.dice ++ [st.marketDice.getD d.toNat 0] }
    ∧ (∀ pid', pid' ≠ w →
        (resolveDieGroup st d bids).players.find? (fun p => p.playerId == pid')
          = st.players.find? (fun p => p.playerId == pid'))
    ∧ (resolveDieGroup st d bids).marketDice = st.marketDice.set d.toNat (-1)
    ∧ (resolveDieGroup st d bids).conflicts = st.conflicts
    ∧ (∃ a, (w, a) ∈ bids ∧ a = bestBidOf bids) := by
  have hcond : ¬(d < 0 ∨ (st.marketDice.length : Int) ≤ d) := by
    push_neg
    exact ⟨hd0, hdlen⟩
  have hne : bids.isEmpty = false := by
    cases bids with
    | nil => simp [topBidders] at hw
    | cons b bs => rfl
  have hred : resolveDieGroup st d bids =
      { st with
          players := updateFirst (fun p => p.playerId == w)
            (fun p => { p with
                          money := p.money - bestBidOf bids
                          dice := p.dice ++ [st.marketDice.getD d.toNat 0] })
            st.players
          marketDice := st.marketDice.set d.toNat (-1) } := by
    rw [resolveDieGroup, if_neg hcond]
    simp only [hne, Bool.false_eq_true, if_false, hw, hp, if_pos hsolv]
  refine ⟨?_, ?_, ?_, ?_, ?_⟩
  · rw [hred]
    have := find?_updateFirst_self
      (p := fun p : Player => p.playerId == w)
      (f := fun p => { p with
                         money := p.money - bestBidOf bids
                         dice := p.dice ++ [st.marketDice.getD d.toNat 0] })
      (l := st.players) (fun a ha => ha)
    rw [this, hp]
    rfl
  · intro pid' hpid
    rw [hred]
    exact find?_updateFirst_other
      (fun a ha => by
        simp at ha ⊢
        rw [ha]
        exact fun hc => hpid hc.symm)
      (fun a => rfl)
  · rw [hred]
  · rw [hred]
  · cases hfil : bids.filter (fun b => b.2 == bestBidOf bids) with
    | nil => simp [topBidders, hfil] at hw
    | cons x xs =>
        have hx : x ∈ bids.filter (fun b => b.2 == bestBidOf bids) := by
          rw [hfil]
          exact List.mem_cons_self _ _
        have hmem := List.mem_filter.mp hx
        have hxw : x.1 = w ∧ xs.map (fun b => b.1) = [] := by
          have h2 := hw
          rw [topBidders, hfil] at h2
          simpa using h2
        refine ⟨x.2, ?_, ?_⟩
        · have hxb : (x.1, x.2) ∈ bids := by simpa using hmem.1
          rw [hxw.1] at hxb
          exact hxb
        · simpa using hmem.2

theorem market_tie_creates_conflict
    (st : MarketResolveSt) (d : Int) (bids : List (PlayerId × Int))
    (w₁ w₂ : PlayerId) (rest : List PlayerId)
    (hd0 : 0 ≤ d) (hdlen : d < (st.marketDice.length : Int))
    (hw : topBidders bids = w₁ :: w₂ :: rest) :
    resolveDieGroup st d bids
      = { st with conflicts := st.conflicts ++
          [Conflict.market ("market-" ++ toString d) d (w₁ :: w₂ :: rest)] } := by
  have hcond : ¬(d < 0 ∨ (st.marketDice.length : Int) ≤ d) := by
    push_neg
    exact ⟨hd0, hdlen⟩
  have hne : bids.isEmpty = false := by
    cases bids with
    | nil => simp [topBidders] at hw
    | cons b bs => rfl
  rw [resolveDieGroup, if_neg hcond]
  simp only [hne, Bool.false_eq_true, if_false, hw]

theorem topBidders_mem (bids : List (PlayerId × Int)) (pid : PlayerId) :
    pid ∈ topBidders bids ↔ ∃ a, (pid, a) ∈ bids ∧ a = bestBidOf bids := by
  simp only [topBidders, List.mem_map, List.mem_filter]
  constructor
  · rintro ⟨b, ⟨hb, hbeq⟩, rfl⟩
    exact ⟨b.2, by simpa using hb, by simpa using hbeq⟩
  · rintro ⟨a, ha, rfl⟩
    exact ⟨(pid, bestBidOf bids), ⟨ha, by simp⟩, rfl⟩

theorem market_phase_transition (st : RoomState) :
    ((resolveMarketPhase st).phase = .buy_phase
      ∨ (resolveMarketPhase st).phase = .auction)
    ∧ ((resolveMarketPhase st).phase = .buy_phase →
        (resolveMarketPhase st).conflicts = []
        ∧ ∀ v ∈ (resolveMarketPhase st).marketDice, v ≠ -1)
    ∧ ((resolveMarketPhase st).phase = .auction →
        (resolveMarketPhase st).conflicts ≠ []) := by
  unfold resolveMarketPhase
  dsimp only
  split
  case isTrue h =>
    refine ⟨Or.inl rfl, fun _ => ⟨rfl, ?_⟩, fun hc => by simp at hc⟩
    intro v hv
    have := List.mem_filter.mp hv
    simpa using this.2
  case isFalse h =>
    refine ⟨Or.inr rfl, fun hc => by simp at hc, fun _ => ?_⟩
    simpa [List.isEmpty_iff] using h

/-- **C2 (amended)**: at market-phase resolution, bids at or above the
minimum price are grouped by die index.  For a die index with a unique
highest bidder **whose money is at least their bid**, the bidder pays the
bid, gains the die, and the slot is retired (`-1`, dropped from the pool on
the `buy_phase` path); an insolvent unique highest bidder is skipped
outright (see the counterexample).  A tie records a `market` conflict
holding exactly the tied top bidders and leaves the players and the pool
untouched; the phase moves to `auction` exactly when a conflict exists and
otherwise to `buy_phase` with the awarded dice dropped.  The closing
conjuncts check the specification's two concrete examples. -/
theorem market_resolution_as_specified :
    (∀ (st : MarketResolveSt) (d : Int) (bids : List (PlayerId × Int))
        (w : PlayerId) (player : Player),
        0 ≤ d → d < (st.marketDice.length : Int) →
        topBidders bids = [w] →
        st.players.find? (fun p => p.playerId == w) = some player →
        bestBidOf bids ≤ player.money →
        (resolveDieGroup st d bids).players.find? (fun p => p.playerId == w)
            = some { player with
                       money := player.money - bestBidOf bids
                       dice := player.dice ++ [st.marketDice.getD d.toNat 0] }
          ∧ (∀ pid', pid' ≠ w →
              (resolveDieGroup st d bids).players.find? (fun p => p.playerId == pid')
                = st.players.find? (fun p => p.playerId == pid'))
          ∧ (resolveDieGroup st d bids).marketDice = st.marketDice.set d.toNat (-1)
          ∧ (resolveDieGroup st d bids).conflicts = st.conflicts
          ∧ (∃ a, (w, a) ∈ bids ∧ a = bestBidOf bids))
    ∧ (∀ (st : MarketResolveSt) (d : Int) (bids : List (PlayerId × Int))
        (w₁ w₂ : PlayerId) (rest : List PlayerId),
        0 ≤ d → d < (st.marketDice.length : Int) →
        topBidders bids = w₁ :: w₂ :: rest →
        resolveDieGroup st d bids
          = { st with conflicts := st.conflicts ++
              [Conflict.market ("market-" ++ toString d) d (w₁ :: w₂ :: rest)] })
    ∧ (∀ (bids : List (PlayerId × Int)) (pid : PlayerId),
        pid ∈ topBidders bids ↔ ∃ a, (pid, a) ∈ bids ∧ a = bestBidOf bids)
    ∧ (∀ st : RoomState,
        ((resolveMarketPhase st).phase = .buy_phase
          ∨ (resolveMarketPhase st).phase = .auction)
        ∧ ((resolveMarketPhase st).phase = .buy_phase →
            (resolveMarketPhase st).conflicts = []
            ∧ ∀ v ∈ (resolveMarketPhase st).marketDice, v ≠ -1)
        ∧ ((resolveMarketPhase st).phase = .auction →
            (resolveMarketPhase st).conflicts ≠ []))
    ∧ (resolveMarketPhase c2TieState).conflicts
        = [Conflict.market "market-0" 0 ["P1", "P2"]]
    ∧ (resolveMarketPhase c2TieState).phase = .auction
    ∧ (resolveMarketPhase c2TieState).marketDice = [4]
    ∧ (resolveMarketPhase c2AwardState).players = [⟨"P1", 4, [4]⟩, ⟨"P2", 10, []⟩]
    ∧ (resolveMarketPhase c2AwardState).marketDice = []
    ∧ (resolveMarketPhase c2AwardState).phase = .buy_phase :=
  ⟨fun st d bids w player hd0 hdlen hw hp hsolv =>
      market_unique_winner_awarded st d bids w player hd0 hdlen hw hp hsolv,
   fun st d bids w₁ w₂ rest hd0 hdlen hw =>
      market_tie_creates_conflict st d bids w₁ w₂ rest hd0 hdlen hw,
   fun bids pid => topBidders_mem bids pid,
   fun st => market_phase_transition st,
   by decide, by decide, by decide, by decide, by decide, by decide⟩

/-- **C2 counterexample**: die 0 has the unique highest bidder `P1` with
bid 100 but money 10.  The claim as stated demands that `P1`'s money drop
by the bid (to −90) and that the die leave the pool; the code instead
leaves the player and pool untouched and records no conflict. -/
theorem market_insolvent_unique_winner_not_charged :
    (resolveMarketPhase c2InsolventState).players = [⟨"P1", 10, []⟩]
    ∧ (resolveMarketPhase c2InsolventState).marketDice = [4]
    ∧ (resolveMarketPhase c2InsolventState).conflicts = []
    ∧ (resolveMarketPhase c2InsolventState).players.map Player.money ≠ [10 - 100] := by
  decide

/-- Witness for `market_resolution_as_specified` at the specification's
single-winner example. -/
theorem market_resolution_witness :
    ((0 : Int) ≤ 0 ∧ (0 : Int) < (([4] : List Int).length : Int)
      ∧ topBidders [("P1", (6 : Int)), ("P2", 5)] = ["P1"]
      ∧ bestBidOf [("P1", (6 : Int)), ("P2", 5)] ≤ (10 : Int))
    ∧ (resolveDieGroup ⟨[⟨"P1", 10, []⟩, ⟨"P2", 10, []⟩], [4], []⟩ 0
        [("P1", 6), ("P2", 5)]).players.find? (fun p => p.playerId == "P1")
        = some ⟨"P1", 4, [4]⟩ := by
  refine ⟨⟨by decide, by decide, by decide, by decide⟩, ?_⟩
  have h := market_resolution_as_specified.1
    ⟨[⟨"P1", 10, []⟩, ⟨"P2", 10, []⟩], [4], []⟩ 0 [("P1", 6), ("P2", 5)]
    "P1" ⟨"P1", 10, []⟩ (by decide) (by decide) (by decide) (by decide) (by decide)
  exact h.1.trans (by decide)

/-! ## C6 — ownership aging -/

/-- **C6**: at every `round_start` resolution every owned cell's producer
and seller values each drop by exactly 1, floored at 1, with the owner
list (and everything else) unchanged; unowned cells are untouched.  The
closing conjunct runs the specification's example: a producer-5/seller-5
owned cell reads 1/1 after 10 agings, owners still present. -/
theorem ownership_aging_floored_decay :
    (∀ grid : List Cell, List.Forall₂ (fun c' c =>
        c'.id = c.id ∧ c'.q = c.q ∧ c'.r = c.r ∧ c'.diceValue = c.diceValue ∧
        c'.blocked = c.blocked ∧ c'.owners = c.owners ∧
        c'.producer = (if c.owners.isEmpty then c.producer else max 1 (c.producer - 1)) ∧
        c'.seller = (if c.owners.isEmpty then c.seller else max 1 (c.seller - 1)))
      (applyOwnershipAging grid) grid)
    ∧ (∀ (st : RoomState) (newMarketDice : List Int),
        (resolveRoundStart st newMarketDice).grid = applyOwnershipAging st.grid)
    ∧ applyOwnershipAging^[10] [c6Cell]
        = [{ c6Cell with producer := 1, seller := 1 }] := by
  refine ⟨?_, ?_, ?_⟩
  · intro grid
    induction grid with
    | nil => exact List.Forall₂.nil
    | cons x xs ih =>
        refine List.Forall₂.cons ?_ ih
        by_cases h : x.owners.isEmpty <;> simp [applyOwnershipAging, h]
  · intro st nd
    rfl
  · decide

/-! ## C7 — the stale-path double payout -/

theorem alarmStep_keeps_submittedPaths (st : RoomState) (nd : List Int)
    (f : PlayerId → List Int) :
    (alarmStep st nd f).submittedPaths = st.submittedPaths := by
  cases hp : st.phase <;>
    simp only [alarmStep, hp] <;>
    first
      | rfl
      | (unfold resolveMarketPhase; dsimp only; split <;> rfl)
      | (unfold resolveBuyPhase; dsimp only; split <;> rfl)
      | (unfold resolveRoundEnd; dsimp only; split <;> rfl)

/-- **C7** fails on the code: no phase resolution ever clears
`submittedPaths` (first conjunct), so a path submitted in one round is paid
again at every later `round_start` until overwritten.  In the concrete
trace, `P1` has a stored path of revenue 7 and submits nothing further;
after the first firing (`round_start → market_phase`) the payouts are
`P1 = 0+1+7 = 8`, `P2 = 0+1 = 1`, and after a full silent round back
through the second `round_start` they are `P1 = 16`, `P2 = 2` — the same
stored revenue was paid twice, where the claim allows it only once. -/
theorem stale_path_paid_every_round_start :
    (∀ (st : RoomState) (nd : List Int) (f : PlayerId → List Int),
        (alarmStep st nd f).submittedPaths = st.submittedPaths)
    ∧ (c7Step^[1] c7State).players.map Player.money = [8, 1]
    ∧ (c7Step^[6] c7State).players.map Player.money = [16, 2]
    ∧ (c7Step^[6] c7State).phase = .market_phase
    ∧ (c7Step^[6] c7State).submittedPaths = c7State.submittedPaths :=
  ⟨alarmStep_keeps_submittedPaths, by decide, by decide, by decide, by decide⟩

/-! ## C8 — wrong-phase actions -/

/-- **C8 (amended)**: an action addressed to a phase other than the current
one leaves the whole authoritative room state unchanged, and **no error is
sent to anyone** — the submitter at most receives the routine unchanged
state broadcast (the original claim's "descriptive error to the submitter"
does not happen; see the counterexample). -/
theorem wrong_phase_silent_noop (st : RoomState) (pid : PlayerId) (a : Action)
    (h : st.phase ≠ a.targetPhase) :
    (handle st pid a).1 = st ∧ countErrors (handle st pid a).2 = 0 := by
  cases a <;>
    simp only [Action.targetPhase] at h <;>
    simp [handle, handleMarketBid, handleMarketSkip, handleMarketRecycle,
      handleBuyCell, handleBuyCellCancel, handleBuyDone, handleAuctionBid,
      handlePath, handlePathDone, h, countErrors]

/-- **C8 counterexample**: a `market_bid` sent during `buy_phase` yields
only the state broadcast — the state is unchanged and no error message is
sent to the submitter, contradicting the claim's error requirement. -/
theorem wrong_phase_no_error_sent :
    (handle c8State "P1" (.marketBid 0 5)).1 = c8State
    ∧ (handle c8State "P1" (.marketBid 0 5)).2 = [OutMsg.broadcast]
    ∧ countErrors (handle c8State "P1" (.marketBid 0 5)).2 = 0 := by
  decide

/-- Witness for `wrong_phase_silent_noop`. -/
theorem wrong_phase_silent_noop_witness :
    c8State.phase ≠ (Action.marketBid 0 5).targetPhase
    ∧ (handle c8State "P1" (Action.marketBid 0 5)).1 = c8State
    ∧ countErrors (handle c8State "P1" (Action.marketBid 0 5)).2 = 0 :=
  ⟨by decide, wrong_phase_silent_noop c8State "P1" (Action.marketBid 0 5) (by decide)⟩

/-! ## C4 — auction resolution of a market conflict -/

theorem auction_market_conflict_award
    (auctionBids : List (String × List (PlayerId × Int)))
    (pendingBuy : List (PlayerId × List BuyAct))
    (players : List Player) (grid : List Cell) (marketDice : List Int)
    (conflictId : String) (dieIndex : Int) (pids : List PlayerId)
    (w : PlayerId) (player : Player)
    (hfirst : pids.find? (fun pid =>
        bidOf ((assocLookup conflictId auctionBids).getD []) pid
          == auctionBestBid ((assocLookup conflictId auctionBids).getD []) pids)
        = some w)
    (hp : players.find? (fun p => p.playerId == w) = some player)
    (hd0 : 0 ≤ dieIndex) (hdlen : dieIndex < (marketDice.length : Int))
    (hdie : marketDice.getD dieIndex.toNat 0 ≠ -1)
    (hsolv : auctionBestBid ((assocLookup conflictId auctionBids).getD []) pids
        ≤ player.money) :
    (resolveOneConflict auctionBids pendingBuy (players, grid, marketDice)
        (.market conflictId dieIndex pids)).1.find? (fun p => p.playerId == w)
      = some { player with
                 dice := player.dice ++ [marketDice.getD dieIndex.toNat 0]
                 money := player.money
                   - auctionBestBid ((assocLookup conflictId auctionBids).getD []) pids }
    ∧ (∀ pid', pid' ≠ w →
        (resolveOneConflict auctionBids pendingBuy (players, grid, marketDice)
            (.market conflictId dieIndex pids)).1.find? (fun p => p.playerId == pid')
          = players.find? (fun p => p.playerId == pid'))
    ∧ (resolveOneConflict auctionBids pendingBuy (players, grid, marketDice)
        (.market conflictId dieIndex pids)).2.1 = grid
    ∧ (resolveOneConflict auctionBids pendingBuy (players, grid, marketDice)
        (.market conflictId dieIndex pids)).2.2
        = marketDice.set dieIndex.toNat (-1) := by
  have hred : resolveOneConflict auctionBids pendingBuy (players, grid, marketDice)
      (.market conflictId dieIndex pids)
      = (updateFirst (fun p => p.playerId == w)
           (fun p => { p with
                         dice := p.dice ++ [marketDice.getD dieIndex.toNat 0]
                         money := p.money
                           - auctionBestBid ((assocLookup conflictId auctionBids).getD []) pids })
           players,
         grid, marketDice.set dieIndex.toNat (-1)) := by
    rw [resolveOneConflict]
    simp only [hfirst, Option.orElse, hp]
    rw [if_pos ⟨hd0, hdlen, hdie, hsolv⟩]
  refine ⟨?_, ?_, ?_, ?_⟩
  · rw [hred]
    have := find?_updateFirst_self
      (p := fun p : Player => p.playerId == w)
      (f := fun p => { p with
                         dice := p.dice ++ [marketDice.getD dieIndex.toNat 0]
                         money := p.money
                           - auctionBestBid ((assocLookup conflictId auctionBids).getD []) pids })
      (l := players) (fun a ha => ha)
    rw [this, hp]
    rfl
  · intro pid' hpid
    rw [hred]
    exact find?_updateFirst_other
      (fun a ha => by
        simp at ha ⊢
        rw [ha]
        exact fun hc => hpid hc.symm)
      (fun a => rfl)
  · rw [hred]
  · rw [hred]

/-- **C4**: when the auction resolves a market-type conflict, the one
designated winner is the first contender in submission order whose bid
reaches the conflict's maximum (`pids.find?`, non-bidders defaulting to 0);
if solvent, that player gains the contested die and pays the highest bid,
while every other contender is untouched and the grid is unchanged.  The
outcome is a pure function of the pending-action buffer (the embedding is
deterministic by construction).  The closing conjuncts run a concrete tie,
where `P1` beats the equal bid of `P2` by submission order. -/
theorem auction_market_conflict_as_specified :
    (∀ (auctionBids : List (String × List (PlayerId × Int)))
        (pendingBuy : List (PlayerId × List BuyAct))
        (players : List Player) (grid : List Cell) (marketDice : List Int)
        (conflictId : String) (dieIndex : Int) (pids : List PlayerId)
        (w : PlayerId) (player : Player),
        pids.find? (fun pid =>
            bidOf ((assocLookup conflictId auctionBids).getD []) pid
              == auctionBestBid ((assocLookup conflictId auctionBids).getD []) pids)
          = some w →
        players.find? (fun p => p.playerId == w) = some player →
        0 ≤ dieIndex → dieIndex < (marketDice.length : Int) →
        marketDice.getD dieIndex.toNat 0 ≠ -1 →
        auctionBestBid ((assocLookup conflictId auctionBids).getD []) pids
          ≤ player.money →
        (resolveOneConflict auctionBids pendingBuy (players, grid, marketDice)
            (.market conflictId dieIndex pids)).1.find? (fun p => p.playerId == w)
          = some { player with
                     dice := player.dice ++ [marketDice.getD dieIndex.toNat 0]
                     money := player.money
                       - auctionBestBid ((assocLookup conflictId auctionBids).getD []) pids }
        ∧ (∀ pid', pid' ≠ w →
            (resolveOneConflict auctionBids pendingBuy (players, grid, marketDice)
                (.market conflictId dieIndex pids)).1.find? (fun p => p.playerId == pid')
              = players.find? (fun p => p.playerId == pid'))
        ∧ (resolveOneConflict auctionBids pendingBuy (players, grid, marketDice)
            (.market conflictId dieIndex pids)).2.1 = grid
        ∧ (resolveOneConflict auctionBids pendingBuy (players, grid, marketDice)
            (.market conflictId dieIndex pids)).2.2
            = marketDice.set dieIndex.toNat (-1))
    ∧ (resolveAuction c4State).players = [⟨"P1", 7, [6]⟩, ⟨"P2", 10, []⟩]
    ∧ (resolveAuction c4State).marketDice = []
    ∧ (resolveAuction c4State).phase = .path_phase :=
  ⟨fun auctionBids pendingBuy players grid marketDice conflictId dieIndex pids
      w player hfirst hp hd0 hdlen hdie hsolv =>
    auction_market_conflict_award auctionBids pendingBuy players grid marketDice
      conflictId dieIndex pids w player hfirst hp hd0 hdlen hdie hsolv,
   by decide, by decide, by decide⟩

/-- Witness for `auction_market_conflict_as_specified` at the `c4State`
conflict: the first-in-order tied bidder `P1` pays 3 and takes the die. -/
theorem auction_market_conflict_witness :
    (["P1", "P2"].find? (fun pid =>
        bidOf ((assocLookup "market-0" c4State.auctionBids).getD []) pid
          == auctionBestBid ((assocLookup "market-0" c4State.auctionBids).getD [])
               ["P1", "P2"]) = some "P1")
    ∧ (resolveOneConflict c4State.auctionBids c4State.pendingBuy
        (c4State.players, c4State.grid, c4State.marketDice)
        (.market "market-0" 0 ["P1", "P2"])).1.find? (fun p => p.playerId == "P1")
      = some ⟨"P1", 7, [6]⟩ := by
  refine ⟨by decide, ?_⟩
  have h := auction_market_conflict_as_specified.1 c4State.auctionBids
    c4State.pendingBuy c4State.players c4State.grid c4State.marketDice
    "market-0" 0 ["P1", "P2"] "P1" ⟨"P1", 10, []⟩ (by decide) (by decide)
    (by decide) (by decide) (by decide) (by decide)
  exact h.1.trans (by decide)

/-! ## C3 — auction resolution of a cell conflict -/

theorem cellConflictStep_other_player (cell : Cell) (bestBid : Int)
    (pendingBuy : List (PlayerId × List BuyAct))
    (acc : List Player × List CellOwner) (pid pid' : PlayerId) (hne : pid' ≠ pid) :
    (cellConflictStep cell bestBid pendingBuy acc pid).1.find?
        (fun p => p.playerId == pid')
      = acc.1.find? (fun p => p.playerId == pid') := by
  unfold cellConflictStep
  cases h1 : acc.1.find? (fun p => p.playerId == pid) with
  | none => rfl
  | some player =>
      cases h2 : ((assocLookup pid pendingBuy).getD []).find?
          (fun a => a.cellId == cell.id) with
      | none => rfl
      | some act =>
          dsimp only
          split
          · rfl
          · split
            · exact find?_updateFirst_other
                (fun a ha => by
                  simp at ha ⊢
                  rw [ha]
                  exact fun hc => hne hc.symm)
                (fun a => rfl)
            · rfl

theorem cellConflictStep_owners (cell : Cell) (bestBid : Int)
    (pendingBuy : List (PlayerId × List BuyAct))
    (acc : List Player × List CellOwner) (pid : PlayerId) :
    ∃ extra, (cellConflictStep cell bestBid pendingBuy acc pid).2 = acc.2 ++ extra
      ∧ ∀ o ∈ extra, o.playerId = pid := by
  unfold cellConflictStep
  cases h1 : acc.1.find? (fun p => p.playerId == pid) with
  | none => exact ⟨[], by simp, by simp⟩
  | some player =>
      cases h2 : ((assocLookup pid pendingBuy).getD []).find?
          (fun a => a.cellId == cell.id) with
      | none => exact ⟨[], by simp, by simp⟩
      | some act =>
          dsimp only
          split
          · exact ⟨[], by simp, by simp⟩
          · split
            · exact ⟨[⟨pid, act.role⟩], rfl, by simp⟩
            · exact ⟨[], by simp, by simp⟩

theorem cellConflictFold_other_player (cell : Cell) (bestBid : Int)
    (pendingBuy : List (PlayerId × List BuyAct)) (ws : List PlayerId)
    (acc : List Player × List CellOwner) (pid' : PlayerId) (hnot : pid' ∉ ws) :
    (ws.foldl (cellConflictStep cell bestBid pendingBuy) acc).1.find?
        (fun p => p.playerId == pid')
      = acc.1.find? (fun p => p.playerId == pid') := by
  induction ws generalizing acc with
  | nil => rfl
  | cons w ws ih =>
      have h1 : pid' ≠ w := fun h => hnot (h ▸ List.mem_cons_self w ws)
      have h2 : pid' ∉ ws := fun h => hnot (List.mem_cons_of_mem _ h)
      rw [List.foldl_cons, ih _ h2, cellConflictStep_other_player _ _ _ _ _ _ h1]

theorem cellConflictFold_owners (cell : Cell) (bestBid : Int)
    (pendingBuy : List (PlayerId × List BuyAct)) (ws : List PlayerId)
    (acc : List Player × List CellOwner) :
    ∃ extra, (ws.foldl (cellConflictStep cell bestBid pendingBuy) acc).2
        = acc.2 ++ extra
      ∧ ∀ o ∈ extra, o.playerId ∈ ws := by
  induction ws generalizing acc with
  | nil => exact ⟨[], by simp, by simp⟩
  | cons w ws ih =>
      obtain ⟨e1, he1, hm1⟩ := cellConflictStep_owners cell bestBid pendingBuy acc w
      obtain ⟨e2, he2, hm2⟩ := ih (cellConflictStep cell bestBid pendingBuy acc w)
      refine ⟨e1 ++ e2, ?_, ?_⟩
      · rw [List.foldl_cons, he2, he1, List.append_assoc]
      · intro o ho
        rcases List.mem_append.mp ho with h | h
        · rw [hm1 o h]
          exact List.mem_cons_self w ws
        · exact List.mem_cons_of_mem _ (hm2 o h)

theorem cellConflictFold_winner (cell : Cell) (bestBid : Int)
    (pendingBuy : List (PlayerId × List BuyAct)) (ws : List PlayerId)
    (acc : List Player × List CellOwner) (pid : PlayerId) (player : Player)
    (act : BuyAct)
    (hmem : pid ∈ ws) (hnd : ws.Nodup)
    (hp : acc.1.find? (fun p => p.playerId == pid) = some player)
    (hrole : ((assocLookup pid pendingBuy).getD []).find?
        (fun a => a.cellId == cell.id) = some act)
    (hsolv : bestBid ≤ player.money)
    (hdie : player.dice.contains cell.diceValue = true) :
    (ws.foldl (cellConflictStep cell bestBid pendingBuy) acc).1.find?
        (fun p => p.playerId == pid)
      = some { player with
                 money := player.money - bestBid
                 dice := player.dice.erase cell.diceValue }
    ∧ (⟨pid, act.role⟩ : CellOwner)
        ∈ (ws.foldl (cellConflictStep cell bestBid pendingBuy) acc).2 := by
  induction ws generalizing acc with
  | nil => cases hmem
  | cons w ws ih =>
      rcases List.mem_cons.mp hmem with heq | hmem'
      · subst heq
        have hnot : pid ∉ ws := (List.nodup_cons.mp hnd).1
        have hstep : cellConflictStep cell bestBid pendingBuy acc pid
            = (updateFirst (fun p => p.playerId == pid)
                 (fun p => { p with
                               money := p.money - bestBid
                               dice := p.dice.erase cell.diceValue }) acc.1,
               acc.2 ++ [⟨pid, act.role⟩]) := by
          unfold cellConflictStep
          rw [hp, hrole]
          dsimp only
          rw [if_neg (not_lt.mpr hsolv), if_pos hdie]
        constructor
        · rw [List.foldl_cons, cellConflictFold_other_player _ _ _ _ _ _ hnot, hstep]
          have := find?_updateFirst_self
            (p := fun p : Player => p.playerId == pid)
            (f := fun p => { p with
                               money := p.money - bestBid
                               dice := p.dice.erase cell.diceValue })
            (l := acc.1) (fun a ha => ha)
          rw [this, hp]
          rfl
        · rw [List.foldl_cons]
          obtain ⟨extra, hex, _⟩ := cellConflictFold_owners cell bestBid pendingBuy ws
            (cellConflictStep cell bestBid pendingBuy acc pid)
          rw [hex, hstep]
          exact List.mem_append_left _ (List.mem_append_right _ (List.mem_cons_self _ _))
      · have hne : pid ≠ w := fun h =>
          (List.nodup_cons.mp hnd).1 (h ▸ hmem')
        have hp' : (cellConflictStep cell bestBid pendingBuy acc w).1.find?
            (fun p => p.playerId == pid) = some player := by
          rw [cellConflictStep_other_player _ _ _ _ _ _ hne]
          exact hp
        rw [List.foldl_cons]
        exact ih _ hmem' (List.nodup_cons.mp hnd).2 hp'

theorem auction_cell_conflict_winner
    (auctionBids : List (String × List (PlayerId × Int)))
    (pendingBuy : List (PlayerId × List BuyAct))
    (players : List Player) (grid : List Cell) (marketDice : List Int)
    (conflictId : String) (cellId : CellId) (pids : List PlayerId)
    (cell : Cell) (pid : PlayerId) (player : Player) (act : BuyAct)
    (hcell : grid.find? (fun x => x.id == cellId) = some cell)
    (hnd : pids.Nodup) (hpidmem : pid ∈ pids)
    (hbid : bidOf ((assocLookup conflictId auctionBids).getD []) pid
        = auctionBestBid ((assocLookup conflictId auctionBids).getD []) pids)
    (hp : players.find? (fun p => p.playerId == pid) = some player)
    (hrole : ((assocLookup pid pendingBuy).getD []).find?
        (fun a => a.cellId == cell.id) = some act)
    (hsolv : auctionBestBid ((assocLookup conflictId auctionBids).getD []) pids
        ≤ player.money)
    (hdie : player.dice.contains cell.diceValue = true) :
    (resolveOneConflict auctionBids pendingBuy (players, grid, marketDice)
        (.cell conflictId cellId pids)).1.find? (fun p => p.playerId == pid)
      = some { player with
                 money := player.money
                   - auctionBestBid ((assocLookup conflictId auctionBids).getD []) pids
                 dice := player.dice.erase cell.diceValue }
    ∧ (∃ cell', (resolveOneConflict auctionBids pendingBuy (players, grid, marketDice)
          (.cell conflictId cellId pids)).2.1.find? (fun x => x.id == cellId)
          = some cell' ∧ (⟨pid, act.role⟩ : CellOwner) ∈ cell'.owners)
    ∧ (resolveOneConflict auctionBids pendingBuy (players, grid, marketDice)
        (.cell conflictId cellId pids)).2.2 = marketDice := by
  have hwin : pid ∈ pids.filter (fun x =>
      bidOf ((assocLookup conflictId auctionBids).getD []) x
        == auctionBestBid ((assocLookup conflictId auctionBids).getD []) pids) :=
    List.mem_filter.mpr ⟨hpidmem, by simp [hbid]⟩
  have hndw : (pids.filter (fun x =>
      bidOf ((assocLookup conflictId auctionBids).getD []) x
        == auctionBestBid ((assocLookup conflictId auctionBids).getD []) pids)).Nodup :=
    hnd.filter _
  have hmain := cellConflictFold_winner cell
    (auctionBestBid ((assocLookup conflictId auctionBids).getD []) pids)
    pendingBuy
    (pids.filter (fun x =>
      bidOf ((assocLookup conflictId auctionBids).getD []) x
        == auctionBestBid ((assocLookup conflictId auctionBids).getD []) pids))
    (players, cell.owners) pid player act hwin hndw hp hrole hsolv hdie
  have hred : resolveOneConflict auctionBids pendingBuy (players, grid, marketDice)
      (.cell conflictId cellId pids)
      = ((runCellConflict cell
            (auctionBestBid ((assocLookup conflictId auctionBids).getD []) pids)
            pendingBuy
            (pids.filter (fun x =>
              bidOf ((assocLookup conflictId auctionBids).getD []) x
                == auctionBestBid ((assocLookup conflictId auctionBids).getD []) pids))
            players).1,
         updateFirst (fun x => x.id == cellId)
           (fun x => { x with owners := (runCellConflict cell
              (auctionBestBid ((assocLookup conflictId auctionBids).getD []) pids)
              pendingBuy
              (pids.filter (fun x =>
                bidOf ((assocLookup conflictId auctionBids).getD []) x
                  == auctionBestBid ((assocLookup conflictId auctionBids).getD []) pids))
              players).2 }) grid,
         marketDice) := by
    rw [resolveOneConflict]
    simp only [hcell]
  refine ⟨?_, ?_, ?_⟩
  · rw [hred]
    exact hmain.1
  · rw [hred]
    refine ⟨{ cell with owners := (runCellConflict cell
        (auctionBestBid ((assocLookup conflictId auctionBids).getD []) pids)
        pendingBuy
        (pids.filter (fun x =>
          bidOf ((assocLookup conflictId auctionBids).getD []) x
            == auctionBestBid ((assocLookup conflictId auctionBids).getD []) pids))
        players).2 }, ?_, hmain.2⟩
    dsimp only
    have := find?_updateFirst_self
      (p := fun x : Cell => x.id == cellId)
      (f := fun x => { x with owners := (runCellConflict cell
          (auctionBestBid ((assocLookup conflictId auctionBids).getD []) pids)
          pendingBuy
          (pids.filter (fun x =>
            bidOf ((assocLookup conflictId auctionBids).getD []) x
              == auctionBestBid ((assocLookup conflictId auctionBids).getD []) pids))
          players).2 })
      (l := grid) (fun a ha => ha)
    rw [this, hcell]
    rfl
  · rw [hred]

theorem auction_cell_conflict_loser
    (auctionBids : List (String × List (PlayerId × Int)))
    (pendingBuy : List (PlayerId × List BuyAct))
    (players : List Player) (grid : List Cell) (marketDice : List Int)
    (conflictId : String) (cellId : CellId) (pids : List PlayerId)
    (cell : Cell) (pid' : PlayerId)
    (hcell : grid.find? (fun x => x.id == cellId) = some cell)
    (hlow : bidOf ((assocLookup conflictId auctionBids).getD []) pid'
        ≠ auctionBestBid ((assocLookup conflictId auctionBids).getD []) pids) :
    (resolveOneConflict auctionBids pendingBuy (players, grid, marketDice)
        (.cell conflictId cellId pids)).1.find? (fun p => p.playerId == pid')
      = players.find? (fun p => p.playerId == pid')
    ∧ ∀ cell' role',
        (resolveOneConflict auctionBids pendingBuy (players, grid, marketDice)
          (.cell conflictId cellId pids)).2.1.find? (fun x => x.id == cellId)
          = some cell' →
        ((⟨pid', role'⟩ : CellOwner) ∈ cell'.owners ↔
          (⟨pid', role'⟩ : CellOwner) ∈ cell.owners) := by
  have hnotwin : pid' ∉ pids.filter (fun x =>
      bidOf ((assocLookup conflictId auctionBids).getD []) x
        == auctionBestBid ((assocLookup conflictId auctionBids).getD []) pids) := by
    intro hmem
    exact hlow (by simpa using (List.mem_filter.mp hmem).2)
  have hred : resolveOneConflict auctionBids pendingBuy (players, grid, marketDice)
      (.cell conflictId cellId pids)
      = ((runCellConflict cell
            (auctionBestBid ((assocLookup conflictId auctionBids).getD []) pids)
            pendingBuy
            (pids.filter (fun x =>
              bidOf ((assocLookup conflictId auctionBids).getD []) x
                == auctionBestBid ((assocLookup conflictId auctionBids).getD []) pids))
            players).1,
         updateFirst (fun x => x.id == cellId)
           (fun x => { x with owners := (runCellConflict cell
              (auctionBestBid ((assocLookup conflictId auctionBids).getD []) pids)
              pendingBuy
              (pids.filter (fun x =>
                bidOf ((assocLookup conflictId auctionBids).getD []) x
                  == auctionBestBid ((assocLookup conflictId auctionBids).getD []) pids))
              players).2 }) grid,
         marketDice) := by
    rw [resolveOneConflict]
    simp only [hcell]
  obtain ⟨extra, hex, hextra⟩ := cellConflictFold_owners cell
    (auctionBestBid ((assocLookup conflictId auctionBids).getD []) pids)
    pendingBuy
    (pids.filter (fun x =>
      bidOf ((assocLookup conflictId auctionBids).getD []) x
        == auctionBestBid ((assocLookup conflictId auctionBids).getD []) pids))
    (players, cell.owners)
  constructor
  · rw [hred]
    exact cellConflictFold_other_player _ _ _ _ _ _ hnotwin
  · intro cell' role' hfind
    rw [hred] at hfind
    have hself := find?_updateFirst_self
      (p := fun x : Cell => x.id == cellId)
      (f := fun x => { x with owners := (runCellConflict cell
          (auctionBestBid ((assocLookup conflictId auctionBids).getD []) pids)
          pendingBuy
          (pids.filter (fun x =>
            bidOf ((assocLookup conflictId auctionBids).getD []) x
              == auctionBestBid ((assocLookup conflictId auctionBids).getD []) pids))
          players).2 })
      (l := grid) (fun a ha => ha)
    rw [hself, hcell] at hfind
    cases hfind
    show (⟨pid', role'⟩ : CellOwner) ∈ (runCellConflict cell
        (auctionBestBid ((assocLookup conflictId auctionBids).getD []) pids)
        pendingBuy
        (pids.filter (fun x =>
          bidOf ((assocLookup conflictId auctionBids).getD []) x
            == auctionBestBid ((assocLookup conflictId auctionBids).getD []) pids))
        players).2 ↔ (⟨pid', role'⟩ : CellOwner) ∈ cell.owners
    unfold runCellConflict
    rw [hex]
    constructor
    · intro hmem
      rcases List.mem_append.mp hmem with h | h
      · exact h
      · exact absurd (hextra _ h) hnotwin
    · intro hmem
      exact List.mem_append_left _ hmem

/-- **C3**: when the auction resolves a cell-type conflict, every contender
whose bid equals the highest bid among the contenders (non-bidders
defaulting to 0), who is solvent at that bid, declared a role for the cell
when queuing the buy, and still holds a die of the cell's value, gains
co-ownership in that declared role, pays the highest bid and loses one such
die; every contender whose bid is not the highest is untouched — no
payment, no ownership.  The closing conjuncts run the specification's
example: two tied top bidders both co-own in their roles, the lower third
bidder gets nothing. -/
theorem auction_cell_conflict_as_specified :
    (∀ (auctionBids : List (String × List (PlayerId × Int)))
        (pendingBuy : List (PlayerId × List BuyAct))
        (players : List Player) (grid : List Cell) (marketDice : List Int)
        (conflictId : String) (cellId : CellId) (pids : List PlayerId)
        (cell : Cell) (pid : PlayerId) (player : Player) (act : BuyAct),
        grid.find? (fun x => x.id == cellId) = some cell →
        pids.Nodup → pid ∈ pids →
        bidOf ((assocLookup conflictId auctionBids).getD []) pid
          = auctionBestBid ((assocLookup conflictId auctionBids).getD []) pids →
        players.find? (fun p => p.playerId == pid) = some player →
        ((assocLookup pid pendingBuy).getD []).find?
          (fun a => a.cellId == cell.id) = some act →
        auctionBestBid ((assocLookup conflictId auctionBids).getD []) pids
          ≤ player.money →
        player.dice.contains cell.diceValue = true →
        (resolveOneConflict auctionBids pendingBuy (players, grid, marketDice)
            (.cell conflictId cellId pids)).1.find? (fun p => p.playerId == pid)
          = some { player with
                     money := player.money
                       - auctionBestBid ((assocLookup conflictId auctionBids).getD []) pids
                     dice := player.dice.erase cell.diceValue }
        ∧ (∃ cell', (resolveOneConflict auctionBids pendingBuy
              (players, grid, marketDice)
              (.cell conflictId cellId pids)).2.1.find? (fun x => x.id == cellId)
              = some cell' ∧ (⟨pid, act.role⟩ : CellOwner) ∈ cell'.owners)
        ∧ (resolveOneConflict auctionBids pendingBuy (players, grid, marketDice)
            (.cell conflictId cellId pids)).2.2 = marketDice)
    ∧ (∀ (auctionBids : List (String × List (PlayerId × Int)))
        (pendingBuy : List (PlayerId × List BuyAct))
        (players : List Player) (grid : List Cell) (marketDice : List Int)
        (conflictId : String) (cellId : CellId) (pids : List PlayerId)
        (cell : Cell) (pid' : PlayerId),
        grid.find? (fun x => x.id == cellId) = some cell →
        bidOf ((assocLookup conflictId auctionBids).getD []) pid'
          ≠ auctionBestBid ((assocLookup conflictId auctionBids).getD []) pids →
        (resolveOneConflict auctionBids pendingBuy (players, grid, marketDice)
            (.cell conflictId cellId pids)).1.find? (fun p => p.playerId == pid')
          = players.find? (fun p => p.playerId == pid')
        ∧ ∀ cell' role',
            (resolveOneConflict auctionBids pendingBuy (players, grid, marketDice)
              (.cell conflictId cellId pids)).2.1.find? (fun x => x.id == cellId)
              = some cell' →
            ((⟨pid', role'⟩ : CellOwner) ∈ cell'.owners ↔
              (⟨pid', role'⟩ : CellOwner) ∈ cell.owners))
    ∧ (resolveAuction c3State).grid.map Cell.owners
        = [[⟨"P1", .producer⟩, ⟨"P2", .seller⟩]]
    ∧ (resolveAuction c3State).players
        = [⟨"P1", 6, []⟩, ⟨"P2", 6, []⟩, ⟨"P3", 10, [5]⟩]
    ∧ (resolveAuction c3State).phase = .path_phase :=
  ⟨fun auctionBids pendingBuy players grid marketDice conflictId cellId pids
      cell pid player act hcell hnd hpidmem hbid hp hrole hsolv hdie =>
    auction_cell_conflict_winner auctionBids pendingBuy players grid marketDice
      conflictId cellId pids cell pid player act hcell hnd hpidmem hbid hp
      hrole hsolv hdie,
   fun auctionBids pendingBuy players grid marketDice conflictId cellId pids
      cell pid' hcell hlow =>
    auction_cell_conflict_loser auctionBids pendingBuy players grid marketDice
      conflictId cellId pids cell pid' hcell hlow,
   by decide, by decide, by decide⟩

/-- Witness for `auction_cell_conflict_as_specified`: the tied top bidder
`P1` of the `c3State` conflict pays 4, loses the 5 die, and co-owns. -/
theorem auction_cell_conflict_witness :
    (["P1", "P2", "P3"] : List PlayerId).Nodup
    ∧ (resolveOneConflict c3State.auctionBids c3State.pendingBuy
        (c3State.players, c3State.grid, c3State.marketDice)
        (.cell "conflict-d" "d" ["P1", "P2", "P3"])).1.find?
          (fun p => p.playerId == "P1")
      = some ⟨"P1", 6, []⟩ := by
  refine ⟨by decide, ?_⟩
  have h := auction_cell_conflict_as_specified.1 c3State.auctionBids
    c3State.pendingBuy c3State.players c3State.grid c3State.marketDice
    "conflict-d" "d" ["P1", "P2", "P3"] c3Cell "P1" ⟨"P1", 10, [5]⟩
    ⟨"d", .producer⟩ (by decide) (by decide) (by decide) (by decide)
    (by decide) (by decide) (by decide) (by decide)
  exact h.1.trans (by decide)

/-! ## C5 — the buy-phase dice-pool decrement -/

theorem assocLookup_updateFirst_self {β : Type _} (k : String)
    (g : β → β) (l : List (String × β)) :
    assocLookup k (updateFirst (fun e => e.1 == k) (fun e => (e.1, g e.2)) l)
      = (assocLookup k l).map g := by
  induction l with
  | nil => simp [updateFirst, assocLookup]
  | cons e rest ih =>
      obtain ⟨k', v'⟩ := e
      by_cases hk : k' = k
      · subst hk
        rw [updateFirst_cons_pos (by simp)]
        simp [assocLookup]
      · rw [updateFirst_cons_neg (by simp [hk])]
        simp [assocLookup, hk, ih]

theorem assocLookup_updateFirst_other {β : Type _} (k k' : String) (hne : k' ≠ k)
    (f : (String × β) → (String × β)) (hf : ∀ e, (f e).1 = e.1)
    (l : List (String × β)) :
    assocLookup k' (updateFirst (fun e => e.1 == k) f l) = assocLookup k' l := by
  induction l with
  | nil => simp [updateFirst]
  | cons e rest ih =>
      by_cases hk : e.1 = k
      · rw [updateFirst_cons_pos (by simp [hk])]
        have h1 : (f e).1 ≠ k' := by rw [hf e, hk]; exact fun h => hne h.symm
        have h2 : e.1 ≠ k' := by rw [hk]; exact fun h => hne h.symm
        simp [assocLookup, h1, h2]
      · rw [updateFirst_cons_neg (by simp [hk])]
        by_cases hk' : e.1 = k'
        · simp [assocLookup, hk']
        · simp [assocLookup, hk', ih]

theorem poolCount_poolDec_self (pools : List (PlayerId × List (Int × Nat)))
    (pid : PlayerId) (v : Int) :
    poolCount (poolDec pools pid v) pid v = poolCount pools pid v - 1 := by
  unfold poolCount poolDec
  rw [assocLookup_updateFirst_self pid
    (fun counts => updateFirst (fun x => x.1 == v) (fun x => (x.1, x.2 - 1)) counts) pools]
  cases h : assocLookup pid pools with
  | none => simp
  | some counts =>
      simp only [Option.map_some']
      have hup := find?_updateFirst_self
        (p := fun x : Int × Nat => x.1 == v)
        (f := fun x : Int × Nat => (x.1, x.2 - 1))
        (l := counts) (fun a ha => ha)
      rw [hup]
      cases hf : counts.find? (fun x => x.1 == v) with
      | none => simp
      | some e => simp

theorem poolCount_poolDec_le (pools : List (PlayerId × List (Int × Nat)))
    (pid' pid : PlayerId) (v' v : Int) :
    poolCount (poolDec pools pid' v') pid v ≤ poolCount pools pid v := by
  by_cases hpid : pid = pid'
  · subst hpid
    by_cases hv : v = v'
    · subst hv
      rw [poolCount_poolDec_self]
      exact Nat.sub_le _ _
    · unfold poolCount poolDec
      rw [assocLookup_updateFirst_self pid
        (fun counts => updateFirst (fun x => x.1 == v') (fun x => (x.1, x.2 - 1)) counts) pools]
      cases h : assocLookup pid pools with
      | none => simp
      | some counts =>
          simp only [Option.map_some']
          rw [find?_updateFirst_other
            (p := fun x : Int × Nat => x.1 == v')
            (q := fun x : Int × Nat => x.1 == v)
            (f := fun x : Int × Nat => (x.1, x.2 - 1))
            (fun a ha => by
              simp at ha ⊢
              rw [ha]
              exact fun hc => hv hc.symm)
            (fun a => rfl)]
  · unfold poolCount poolDec
    rw [assocLookup_updateFirst_other pid' pid (fun h => hpid h)
      (fun e => (e.1, updateFirst (fun x => x.1 == v') (fun x => (x.1, x.2 - 1)) e.2))
      (fun e => rfl)]

theorem dicePoolFilter_sublist (grid : List Cell)
    (pools : List (PlayerId × List (Int × Nat))) (acts : List ApplyAct) :
    (dicePoolFilter grid pools acts).Sublist acts := by
  induction acts generalizing pools with
  | nil => simp [dicePoolFilter]
  | cons act rest ih =>
      rw [dicePoolFilter]
      cases hfind : grid.find? (fun c => c.id == act.cellId) with
      | none => exact (ih pools).cons act
      | some cell =>
          dsimp only
          split
          · exact (ih pools).cons act
          · exact (ih _).cons₂ act

theorem dicePoolFilter_count_le (grid : List Cell)
    (pools : List (PlayerId × List (Int × Nat))) (acts : List ApplyAct)
    (pid : PlayerId) (v : Int) :
    ((dicePoolFilter grid pools acts).filter (fun a =>
        a.playerId == pid &&
          ((grid.find? (fun c => c.id == a.cellId)).map Cell.diceValue == some v))).length
      ≤ poolCount pools pid v := by
  induction acts generalizing pools with
  | nil => simp [dicePoolFilter]
  | cons act rest ih =>
      rw [dicePoolFilter]
      cases hfind : grid.find? (fun c => c.id == act.cellId) with
      | none => exact ih pools
      | some cell =>
          dsimp only
          split
          case isTrue hleft => exact ih pools
          case isFalse hleft =>
            by_cases hmatch : (act.playerId == pid &&
                ((grid.find? (fun c => c.id == act.cellId)).map Cell.diceValue
                  == some v)) = true
            · have hmm := hmatch
              rw [hfind] at hmm
              simp only [Bool.and_eq_true, beq_iff_eq, Option.map_some'] at hmm
              obtain ⟨hppid, hvv⟩ := hmm
              have hvv' : cell.diceValue = v := by simpa using hvv
              subst hppid
              subst hvv'
              rw [List.filter_cons_of_pos
                (p := fun a : ApplyAct => a.playerId == act.playerId &&
                  ((grid.find? (fun c => c.id == a.cellId)).map Cell.diceValue
                    == some cell.diceValue))
                hmatch, List.length_cons]
              have hpos : 1 ≤ poolCount pools act.playerId cell.diceValue :=
                Nat.one_le_iff_ne_zero.mpr hleft
              have hrec := ih (poolDec pools act.playerId cell.diceValue)
              rw [poolCount_poolDec_self] at hrec
              omega
            · rw [List.filter_cons_of_neg
                (p := fun a : ApplyAct => a.playerId == pid &&
                  ((grid.find? (fun c => c.id == a.cellId)).map Cell.diceValue == some v))
                (by simpa using hmatch)]
              exact le_trans (ih (poolDec pools act.playerId cell.diceValue))
                (poolCount_poolDec_le pools act.playerId pid cell.diceValue v)

/-- **C5**: at buy-phase resolution the per-player dice pool decrement is
applied across the queued single-claimant claims in queue order: the
surviving claims are a subsequence of the queued ones (order preserved,
drops silent), and for every player and die value the surviving claims
needing that value never exceed the dice of that value the player holds.
The closing conjuncts run the specification's example: dice `[3,3]` with
three queued 3-cells commit exactly the first two in queue order, the
third is dropped with no conflict and no error. -/
theorem buy_phase_dice_pool_as_specified :
    (∀ (grid : List Cell) (pools : List (PlayerId × List (Int × Nat)))
        (acts : List ApplyAct),
        (dicePoolFilter grid pools acts).Sublist acts)
    ∧ (∀ (grid : List Cell) (pools : List (PlayerId × List (Int × Nat)))
        (acts : List ApplyAct) (pid : PlayerId) (v : Int),
        ((dicePoolFilter grid pools acts).filter (fun a =>
            a.playerId == pid &&
              ((grid.find? (fun c => c.id == a.cellId)).map Cell.diceValue
                == some v))).length
          ≤ poolCount pools pid v)
    ∧ (resolveBuyPhase c5State).grid.map (fun c => (c.id, c.owners))
        = [("a", [⟨"P1", .producer⟩]), ("b", [⟨"P1", .seller⟩]), ("c", [])]
    ∧ (resolveBuyPhase c5State).players = [⟨"P1", 10, []⟩]
    ∧ (resolveBuyPhase c5State).conflicts = []
    ∧ (resolveBuyPhase c5State).phase = .path_phase :=
  ⟨dicePoolFilter_sublist, dicePoolFilter_count_le,
   by decide, by decide, by decide, by decide⟩

/-! ## C9 and C10 — reachable-state invariants

The invariant `Inv` (blocked cells own nothing, queued buys and cell
conflicts reference unblocked cells, money is non-negative) is established
at initialisation and preserved by every handler and every phase
resolution; `reachable_inv` closes the induction over `Reachable`. -/


theorem inv_of_same {st st' : RoomState} (h : Inv st)
    (hg : st'.grid = st.grid) (hp : st'.players = st.players)
    (hb : st'.pendingBuy = st.pendingBuy) (hc : st'.conflicts = st.conflicts) :
    Inv st' := by
  constructor
  · rw [hg]; exact h.blockedFree
  · rw [hb, hg]; exact h.buyRefs
  · intro cid cellId pids hmem
    rw [hc] at hmem
    rw [hg]
    exact h.conflictRefs cid cellId pids hmem
  · rw [hp]; exact h.moneyNonneg

theorem inv_initialState (roundCount : Nat) : Inv (initialState roundCount) := by
  constructor <;> simp [initialState]

theorem generateGrid_owners (minCells blockedCount : Nat) (blockedIdx : List Nat)
    (diceVals prodVals sellVals : Nat → Int) :
    ∀ c ∈ generateGrid minCells blockedCount blockedIdx diceVals prodVals sellVals,
      c.owners = [] := by
  intro c hc
  unfold generateGrid at hc
  simp only [List.mem_map] at hc
  obtain ⟨ai, _, rfl⟩ := hc
  rfl

theorem inv_handleJoin {st : RoomState} (h : Inv st) (pid : PlayerId) :
    Inv (handleJoin st pid).1 := by
  unfold handleJoin
  split
  · exact h
  · constructor
    · exact h.blockedFree
    · exact h.buyRefs
    · exact h.conflictRefs
    · intro p hp
      rcases List.mem_append.mp hp with hmem | hmem
      · exact h.moneyNonneg p hmem
      · simp at hmem
        simp [hmem]

theorem inv_handleStartGame {st : RoomState} (h : Inv st)
    (blockedIdx : List Nat) (diceVals prodVals sellVals : Nat → Int)
    (hands : Nat → List Int) (marketDice : List Int) :
    Inv (handleStartGame st blockedIdx diceVals prodVals sellVals hands
      marketDice).1 := by
  unfold handleStartGame
  split
  · exact h
  · constructor
    · intro c hc hbl
      exact generateGrid_owners _ _ _ _ _ _ c hc
    · intro pb hpb
      simp [clearPending] at hpb
    · intro cid cellId pids hmem
      simp [clearPending] at hmem
    · intro p hp
      simp only [List.mem_map] at hp
      obtain ⟨ip, _, rfl⟩ := hp
      show (0 : Int) ≤ 10
      norm_num



theorem rebuildQueue_refs (grid : List Cell) (pool : List (Int × Nat))
    (acts : List BuyAct) :
    ∀ a ∈ rebuildQueue grid pool acts, cellUnblockedRef grid a.cellId := by
  induction acts generalizing pool with
  | nil => simp [rebuildQueue]
  | cons act rest ih =>
      rw [rebuildQueue]
      cases hfind : grid.find? (fun c => c.id == act.cellId) with
      | none => exact ih pool
      | some target =>
          dsimp only
          split
          case isTrue hbl => exact ih pool
          case isFalse hbl =>
            split
            case isTrue hleft => exact ih pool
            case isFalse hleft =>
              intro a ha
              rcases List.mem_cons.mp ha with heq | hmem
              · subst heq
                intro c hc
                rw [hfind] at hc
                cases hc
                simpa using hbl
              · exact ih _ a hmem

theorem inv_handleMarketBid {st : RoomState} (h : Inv st) (pid : PlayerId)
    (dieIndex amount : Int) : Inv (handleMarketBid st pid dieIndex amount).1 := by
  unfold handleMarketBid
  split
  · exact h
  · split
    · exact h
    · split
      · exact h
      · exact inv_of_same h rfl rfl rfl rfl

theorem inv_handleMarketSkip {st : RoomState} (h : Inv st) (pid : PlayerId) :
    Inv (handleMarketSkip st pid).1 := by
  unfold handleMarketSkip
  split
  · exact h
  · exact inv_of_same h rfl rfl rfl rfl

theorem inv_handleMarketRecycle {st : RoomState} (h : Inv st) (pid : PlayerId)
    (dieIndex : Int) : Inv (handleMarketRecycle st pid dieIndex).1 := by
  unfold handleMarketRecycle
  split
  · exact h
  · split
    · exact h
    · split
      · exact h
      · refine ⟨h.blockedFree, h.buyRefs, h.conflictRefs, ?_⟩
        refine forall_mem_updateFirst h.moneyNonneg ?_
        intro b _ hb
        dsimp only
        omega

theorem inv_handleBuyCell {st : RoomState} (h : Inv st) (pid : PlayerId)
    (cellId : CellId) (role : Role) : Inv (handleBuyCell st pid cellId role).1 := by
  unfold handleBuyCell
  split
  · exact h
  · split
    case _ cell player hcell hplayer =>
      split
      · exact h
      · dsimp only
        split
        · exact h
        · refine ⟨h.blockedFree, ?_, h.conflictRefs, h.moneyNonneg⟩
          intro pb hpb a ha
          rcases mem_assocSet hpb with heq | hmem
          · subst heq
            exact rebuildQueue_refs st.grid (dicePoolOf player.dice) _ a ha
          · exact h.buyRefs pb hmem a ha
    case _ => exact h

theorem inv_handleBuyCellCancel {st : RoomState} (h : Inv st) (pid : PlayerId)
    (cellId : CellId) : Inv (handleBuyCellCancel st pid cellId).1 := by
  unfold handleBuyCellCancel
  split
  · exact h
  · dsimp only
    refine ⟨h.blockedFree, ?_, h.conflictRefs, h.moneyNonneg⟩
    intro pb hpb a ha
    split at hpb
    · exact h.buyRefs pb (mem_assocErase hpb) a ha
    · rcases mem_assocSet hpb with heq | hmem
      · subst heq
        have hmemf := (List.mem_filter.mp ha).1
        cases hlook : assocLookup pid st.pendingBuy with
        | none =>
            rw [hlook] at hmemf
            simp at hmemf
        | some acts =>
            rw [hlook] at hmemf
            exact h.buyRefs (pid, acts) (mem_of_assocLookup_eq_some hlook) a hmemf
      · exact h.buyRefs pb hmem a ha

theorem inv_handleBuyDone {st : RoomState} (h : Inv st) (pid : PlayerId) :
    Inv (handleBuyDone st pid).1 := by
  unfold handleBuyDone
  split
  · exact h
  · exact inv_of_same h rfl rfl rfl rfl

theorem inv_handleAuctionBid {st : RoomState} (h : Inv st) (pid : PlayerId)
    (conflictId : String) (amount : Int) :
    Inv (handleAuctionBid st pid conflictId amount).1 := by
  unfold handleAuctionBid
  split
  · exact h
  · split
    · exact h
    · exact inv_of_same h rfl rfl rfl rfl

theorem inv_handlePath {st : RoomState} (h : Inv st) (pid : PlayerId)
    (producerId sellerId : CellId) (path : List Axial) :
    Inv (handlePath st pid producerId sellerId path).1 := by
  unfold handlePath
  split
  · exact h
  · split
    · exact h
    · split
      · exact h
      · split
        · exact h
        · split
          · exact h
          · split
            · exact h
            · split
              · exact h
              · exact inv_of_same h rfl rfl rfl rfl

theorem inv_handlePathDone {st : RoomState} (h : Inv st) (pid : PlayerId) :
    Inv (handlePathDone st pid).1 := by
  unfold handlePathDone
  split
  · exact h
  · exact inv_of_same h rfl rfl rfl rfl

theorem inv_handle {st : RoomState} (h : Inv st) (pid : PlayerId) (a : Action) :
    Inv (handle st pid a).1 := by
  cases a with
  | marketBid d amt => exact inv_handleMarketBid h pid d amt
  | marketSkip => exact inv_handleMarketSkip h pid
  | marketRecycle d => exact inv_handleMarketRecycle h pid d
  | buyCell c r => exact inv_handleBuyCell h pid c r
  | buyCellCancel c => exact inv_handleBuyCellCancel h pid c
  | buyDone => exact inv_handleBuyDone h pid
  | auctionBid c amt => exact inv_handleAuctionBid h pid c amt
  | path p s pa => exact inv_handlePath h pid p s pa
  | pathDone => exact inv_handlePathDone h pid



theorem inv_resolveRoundStart {st : RoomState} (h : Inv st) (nd : List Int) :
    Inv (resolveRoundStart st nd) := by
  unfold resolveRoundStart
  dsimp only
  constructor
  · intro c hc hbl
    unfold applyOwnershipAging at hc
    simp only [List.mem_map] at hc
    obtain ⟨c0, hc0, rfl⟩ := hc
    by_cases hemp : c0.owners.isEmpty <;>
      simp [hemp] at hbl ⊢ <;>
      exact h.blockedFree c0 hc0 hbl
  · intro pb hpb a ha
    exact cellUnblockedRef_of_sameShape (sameShape_aging st.grid)
      (h.buyRefs pb hpb a ha)
  · intro cid cellId pids hmem
    exact cellUnblockedRef_of_sameShape (sameShape_aging st.grid)
      (h.conflictRefs cid cellId pids hmem)
  · refine foldl_preserve (P := fun ps : List Player => ∀ p ∈ ps, 0 ≤ p.money) ?_ ?_
    · intro p hp
      simp only [List.mem_map] at hp
      obtain ⟨p0, hp0, rfl⟩ := hp
      have := h.moneyNonneg p0 hp0
      dsimp only
      omega
    · intro ps e _ hps
      refine forall_mem_updateFirst hps ?_
      intro b _ hb
      dsimp only
      have h0 : (0 : Int) ≤ max 0 e.2.revenue := le_max_left 0 _
      omega

theorem inv_resolvePathPhase {st : RoomState} (h : Inv st)
    (f : PlayerId → List Int) : Inv (resolvePathPhase st f) := by
  unfold resolvePathPhase
  refine ⟨h.blockedFree, h.buyRefs, h.conflictRefs, ?_⟩
  intro p hp
  simp only [List.mem_map] at hp
  obtain ⟨p0, hp0, rfl⟩ := hp
  have := h.moneyNonneg p0 hp0
  by_cases hd : p0.dice.isEmpty <;> simp [hd] <;> exact this

theorem inv_resolveRoundEnd {st : RoomState} (h : Inv st) (nd : List Int) :
    Inv (resolveRoundEnd st nd) := by
  unfold resolveRoundEnd
  dsimp only
  split <;> exact inv_of_same h rfl rfl rfl rfl

theorem resolveDieGroup_preserves (st : MarketResolveSt) (d : Int)
    (bids : List (PlayerId × Int))
    (hmoney : ∀ p ∈ st.players, 0 ≤ p.money)
    (hmkt : ∀ cid cellId pids, Conflict.cell cid cellId pids ∉ st.conflicts) :
    (∀ p ∈ (resolveDieGroup st d bids).players, 0 ≤ p.money)
    ∧ (∀ cid cellId pids,
        Conflict.cell cid cellId pids ∉ (resolveDieGroup st d bids).conflicts) := by
  unfold resolveDieGroup
  split
  · exact ⟨hmoney, hmkt⟩
  · split
    · exact ⟨hmoney, hmkt⟩
    · split
      · split
        · next player hfind =>
            dsimp only
            split
            · next hsolv =>
                refine ⟨?_, hmkt⟩
                refine forall_mem_updateFirst_of_find? hfind hmoney ?_
                dsimp only
                have := hmoney player (List.mem_of_find?_eq_some hfind)
                omega
            · exact ⟨hmoney, hmkt⟩
        · exact ⟨hmoney, hmkt⟩
      · refine ⟨hmoney, ?_⟩
        intro cid cellId pids hmem
        rcases List.mem_append.mp hmem with hm | hm
        · exact hmkt cid cellId pids hm
        · simp at hm

theorem inv_resolveMarketPhase {st : RoomState} (h : Inv st) :
    Inv (resolveMarketPhase st) := by
  unfold resolveMarketPhase
  dsimp only
  have hfold : (∀ p ∈ ((groupBidsByDieIndex st.marketMinPrice st.pendingMarket).foldl
        (fun s g => resolveDieGroup s g.1 g.2)
        ⟨st.players, st.marketDice, []⟩).players, 0 ≤ p.money)
      ∧ (∀ cid cellId pids, Conflict.cell cid cellId pids ∉
          ((groupBidsByDieIndex st.marketMinPrice st.pendingMarket).foldl
            (fun s g => resolveDieGroup s g.1 g.2)
            ⟨st.players, st.marketDice, []⟩).conflicts) := by
    refine foldl_preserve (P := fun ms : MarketResolveSt =>
      (∀ p ∈ ms.players, 0 ≤ p.money)
      ∧ (∀ cid cellId pids, Conflict.cell cid cellId pids ∉ ms.conflicts))
      ⟨h.moneyNonneg, by simp⟩ ?_
    intro ms g _ hms
    exact resolveDieGroup_preserves ms g.1 g.2 hms.1 hms.2
  split
  · refine ⟨h.blockedFree, ?_, ?_, hfold.1⟩
    · intro pb hpb
      simp [clearPending] at hpb
    · intro cid cellId pids hmem
      simp [clearPending] at hmem
  · refine ⟨h.blockedFree, h.buyRefs, ?_, hfold.1⟩
    intro cid cellId pids hmem
    exact absurd hmem (hfold.2 cid cellId pids)



theorem addPidToCellGroups_keys (cid : CellId) (pid : PlayerId)
    (gs : List (CellId × List PlayerId)) :
    ∀ k ∈ (addPidToCellGroups cid pid gs).map (fun cg => cg.1),
      k = cid ∨ k ∈ gs.map (fun cg => cg.1) := by
  induction gs with
  | nil =>
      intro k hk
      simp [addPidToCellGroups] at hk
      exact Or.inl hk
  | cons g rest ih =>
      obtain ⟨c, l⟩ := g
      intro k hk
      rw [addPidToCellGroups] at hk
      split at hk
      · next hc =>
          subst hc
          split at hk <;>
            (simp at hk
             rcases hk with hk | hk
             · exact Or.inl hk
             · exact Or.inr (by simp [hk]))
      · simp at hk
        rcases hk with hk | hk
        · exact Or.inr (by simp [hk])
        · rcases ih k (by simpa using hk) with h' | h'
          · exact Or.inl h'
          · exact Or.inr (by simp; exact Or.inr (by simpa using h'))



theorem buildByCell_keys (buys : List (PlayerId × List BuyAct)) :
    ∀ k ∈ (buildByCell buys).1.map (fun cg => cg.1),
      ∃ pb ∈ buys, ∃ a ∈ pb.2, a.cellId = k := by
  unfold buildByCell
  refine foldl_preserve
    (P := fun acc : List (CellId × List PlayerId) × List ((PlayerId × CellId) × Role) =>
      ∀ k ∈ acc.1.map (fun cg => cg.1), ∃ pb ∈ buys, ∃ a ∈ pb.2, a.cellId = k)
    ?_ ?_
  · intro k hk
    simp at hk
  intro acc pb hpb hacc
  dsimp only
  refine foldl_preserve
    (P := fun inner : List CellId × List (CellId × List PlayerId)
        × List ((PlayerId × CellId) × Role) =>
      ∀ k ∈ inner.2.1.map (fun cg => cg.1), ∃ pb ∈ buys, ∃ a ∈ pb.2, a.cellId = k)
    ?_ ?_
  · exact hacc
  intro inner a ha hinner
  dsimp only
  split
  · exact hinner
  · intro k hk
    rcases addPidToCellGroups_keys a.cellId pb.1 inner.2.1 k hk with h' | h'
    · exact ⟨pb, hpb, a, ha, h'.symm⟩
    · exact hinner k h'



theorem computeToApply_props (grid : List Cell) (players : List Player)
    (byCell : List (CellId × List PlayerId))
    (roles : List ((PlayerId × CellId) × Role)) :
    (∀ act ∈ (computeToApply grid players byCell roles).1,
      cellUnblockedRef grid act.cellId)
    ∧ (∀ cf ∈ (computeToApply grid players byCell roles).2,
      ∃ cid cellId pids, cf = Conflict.cell cid cellId pids
        ∧ cellId ∈ byCell.map (fun cg => cg.1)) := by
  unfold computeToApply
  have hmono : ∀ cg ∈ byCell, cg.1 ∈ byCell.map (fun cg => cg.1) := by
    intro cg hcg
    exact List.mem_map.mpr ⟨cg, hcg, rfl⟩
  refine foldl_preserve
    (P := fun acc : List ApplyAct × List Conflict =>
      (∀ act ∈ acc.1, cellUnblockedRef grid act.cellId)
      ∧ (∀ cf ∈ acc.2, ∃ cid cellId pids, cf = Conflict.cell cid cellId pids
          ∧ cellId ∈ byCell.map (fun cg => cg.1)))
    ?_ ?_
  · exact ⟨by simp, by simp⟩
  intro acc cg hcg hacc
  dsimp only
  split
  · next pid =>
      split
      · next cell player role hcell hplayer hrole =>
          split
          · next hcheck =>
              refine ⟨?_, hacc.2⟩
              intro act hact
              rcases List.mem_append.mp hact with hm | hm
              · exact hacc.1 act hm
              · simp at hm
                subst hm
                intro c hc
                dsimp only at hc
                rw [hcell] at hc
                cases hc
                have hcheck2 := hcheck
                simp only [Bool.and_eq_true, Bool.not_eq_true'] at hcheck2
                exact hcheck2.1
          · exact hacc
      · exact hacc
  · refine ⟨hacc.1, ?_⟩
    intro cf hcf
    rcases List.mem_append.mp hcf with hm | hm
    · exact hacc.2 cf hm
    · simp at hm
      subst hm
      exact ⟨_, cg.1, cg.2, rfl, hmono cg hcg⟩



theorem commitStep_shape (pg : List Player × List Cell) (act : ApplyAct) :
    sameShape pg.2 (commitStep pg act).2 := by
  unfold commitStep
  cases h1 : pg.2.find? (fun c => c.id == act.cellId) with
  | none => exact sameShape_refl _
  | some cell =>
      cases h2 : pg.1.find? (fun p => p.playerId == act.playerId) with
      | none => exact sameShape_refl _
      | some player =>
          exact sameShape_updateFirst _ _ _ (fun c => ⟨rfl, rfl⟩)

theorem commitStep_blockedFree (pg : List Player × List Cell) (act : ApplyAct)
    (hbf : ∀ c ∈ pg.2, c.blocked = true → c.owners = [])
    (href : cellUnblockedRef pg.2 act.cellId) :
    ∀ c ∈ (commitStep pg act).2, c.blocked = true → c.owners = [] := by
  unfold commitStep
  cases h1 : pg.2.find? (fun c => c.id == act.cellId) with
  | none => exact hbf
  | some cell =>
      cases h2 : pg.1.find? (fun p => p.playerId == act.playerId) with
      | none => exact hbf
      | some player =>
          dsimp only
          intro c hc hbl
          rcases mem_updateFirst hc with hm | ⟨a, ha, rfl⟩
          · exact hbf c hm hbl
          · exfalso
            have : a.blocked = false := href a ha
            simp at hbl
            rw [this] at hbl
            exact Bool.false_ne_true hbl

theorem commitStep_money (pg : List Player × List Cell) (act : ApplyAct)
    (h : ∀ p ∈ pg.1, 0 ≤ p.money) :
    ∀ p ∈ (commitStep pg act).1, 0 ≤ p.money := by
  unfold commitStep
  cases h1 : pg.2.find? (fun c => c.id == act.cellId) with
  | none => exact h
  | some cell =>
      cases h2 : pg.1.find? (fun p => p.playerId == act.playerId) with
      | none => exact h
      | some player =>
          dsimp only
          refine forall_mem_updateFirst h ?_
          intro b _ hb
          split <;> exact hb

theorem commitBuys_inv (acts : List ApplyAct) (players : List Player)
    (grid : List Cell)
    (hrefs : ∀ act ∈ acts, cellUnblockedRef grid act.cellId)
    (hbf : ∀ c ∈ grid, c.blocked = true → c.owners = [])
    (hm : ∀ p ∈ players, 0 ≤ p.money) :
    (∀ c ∈ (commitBuys acts players grid).2, c.blocked = true → c.owners = [])
    ∧ (∀ p ∈ (commitBuys acts players grid).1, 0 ≤ p.money)
    ∧ sameShape grid (commitBuys acts players grid).2 := by
  unfold commitBuys
  refine foldl_preserve
    (P := fun pg : List Player × List Cell =>
      (∀ c ∈ pg.2, c.blocked = true → c.owners = [])
      ∧ (∀ p ∈ pg.1, 0 ≤ p.money)
      ∧ sameShape grid pg.2)
    ⟨hbf, hm, sameShape_refl grid⟩ ?_
  intro pg act hact hpg
  refine ⟨?_, commitStep_money pg act hpg.2.1, ?_⟩
  · exact commitStep_blockedFree pg act hpg.1
      (cellUnblockedRef_of_sameShape hpg.2.2 (hrefs act hact))
  · exact sameShape_trans hpg.2.2 (commitStep_shape pg act)



theorem inv_resolveBuyPhase {st : RoomState} (h : Inv st) :
    Inv (resolveBuyPhase st) := by
  have hkeys := buildByCell_keys st.pendingBuy
  have hta := computeToApply_props st.grid st.players
    (buildByCell st.pendingBuy).1 (buildByCell st.pendingBuy).2
  have hfilter : ∀ act ∈ dicePoolFilter st.grid (buildPools st.players)
      (computeToApply st.grid st.players (buildByCell st.pendingBuy).1
        (buildByCell st.pendingBuy).2).1, cellUnblockedRef st.grid act.cellId := by
    intro act hact
    exact hta.1 act ((dicePoolFilter_sublist _ _ _).subset hact)
  have hcommit := commitBuys_inv _ st.players st.grid hfilter h.blockedFree h.moneyNonneg
  have hconf : ∀ cid cellId pids,
      Conflict.cell cid cellId pids ∈ (computeToApply st.grid st.players
        (buildByCell st.pendingBuy).1 (buildByCell st.pendingBuy).2).2 →
      cellUnblockedRef st.grid cellId := by
    intro cid cellId pids hcf
    obtain ⟨cid', cellId', pids', heq', hkey⟩ := hta.2 _ hcf
    cases heq'
    obtain ⟨pb, hpb, a, ha, hak⟩ := hkeys _ hkey
    have := h.buyRefs pb hpb a ha
    rw [hak] at this
    exact this
  unfold resolveBuyPhase
  dsimp only
  split
  · refine ⟨hcommit.1, ?_, ?_, hcommit.2.1⟩
    · intro pb hpb
      simp [clearPending] at hpb
    · intro cid cellId pids hmem
      simp [clearPending] at hmem
  · refine ⟨hcommit.1, ?_, ?_, hcommit.2.1⟩
    · intro pb hpb a ha
      exact cellUnblockedRef_of_sameShape hcommit.2.2 (h.buyRefs pb hpb a ha)
    · intro cid cellId pids hmem
      exact cellUnblockedRef_of_sameShape hcommit.2.2 (hconf cid cellId pids hmem)



theorem cellConflictStep_money (cell : Cell) (bestBid : Int)
    (pendingBuy : List (PlayerId × List BuyAct))
    (acc : List Player × List CellOwner) (pid : PlayerId)
    (h : ∀ p ∈ acc.1, 0 ≤ p.money) :
    ∀ p ∈ (cellConflictStep cell bestBid pendingBuy acc pid).1, 0 ≤ p.money := by
  unfold cellConflictStep
  cases h1 : acc.1.find? (fun p => p.playerId == pid) with
  | none => exact h
  | some player =>
      cases h2 : ((assocLookup pid pendingBuy).getD []).find?
          (fun a => a.cellId == cell.id) with
      | none => exact h
      | some act =>
          dsimp only
          split
          · exact h
          · next hsolv =>
              split
              · refine forall_mem_updateFirst_of_find? h1 h ?_
                dsimp only
                have := h player (List.mem_of_find?_eq_some h1)
                omega
              · exact h
  
theorem resolveOneConflict_inv (auctionBids : List (String × List (PlayerId × Int)))
    (pendingBuy : List (PlayerId × List BuyAct)) (g₀ : List Cell)
    (acc : List Player × List Cell × List Int) (cf : Conflict)
    (hm : ∀ p ∈ acc.1, 0 ≤ p.money)
    (hbf : ∀ c ∈ acc.2.1, c.blocked = true → c.owners = [])
    (hshape : sameShape g₀ acc.2.1)
    (hcfref : ∀ cid cellId pids, cf = Conflict.cell cid cellId pids →
      cellUnblockedRef g₀ cellId) :
    (∀ p ∈ (resolveOneConflict auctionBids pendingBuy acc cf).1, 0 ≤ p.money)
    ∧ (∀ c ∈ (resolveOneConflict auctionBids pendingBuy acc cf).2.1,
        c.blocked = true → c.owners = [])
    ∧ sameShape g₀ (resolveOneConflict auctionBids pendingBuy acc cf).2.1 := by
  obtain ⟨players, grid, marketDice⟩ := acc
  cases cf with
  | market conflictId dieIndex pids =>
      unfold resolveOneConflict
      dsimp only at *
      cases hbp : ((pids.find? fun pid =>
          bidOf ((assocLookup conflictId auctionBids).getD []) pid
            == auctionBestBid ((assocLookup conflictId auctionBids).getD []) pids).orElse
          fun _ => pids.head?) with
      | none =>
          dsimp only
          exact ⟨hm, hbf, hshape⟩
      | some bestPlayer =>
          dsimp only
          cases hfind : players.find? (fun p => p.playerId == bestPlayer) with
          | none =>
              dsimp only
              exact ⟨hm, hbf, hshape⟩
          | some player =>
              dsimp only
              split
              · next hcond =>
                  refine ⟨?_, hbf, hshape⟩
                  refine forall_mem_updateFirst_of_find? hfind hm ?_
                  dsimp only
                  have := hm player (List.mem_of_find?_eq_some hfind)
                  have h4 := hcond.2.2.2
                  omega
              · exact ⟨hm, hbf, hshape⟩
  | cell conflictId cellId pids =>
      unfold resolveOneConflict
      dsimp only at *
      cases hcell : grid.find? (fun x => x.id == cellId) with
      | none =>
          dsimp only
          exact ⟨hm, hbf, hshape⟩
      | some cell =>
          dsimp only
          have hrun : ∀ p ∈ (runCellConflict cell
              (auctionBestBid ((assocLookup conflictId auctionBids).getD []) pids)
              pendingBuy
              (pids.filter fun pid =>
                bidOf ((assocLookup conflictId auctionBids).getD []) pid
                  == auctionBestBid ((assocLookup conflictId auctionBids).getD []) pids)
              players).1, 0 ≤ p.money := by
            unfold runCellConflict
            refine foldl_preserve
              (P := fun acc2 : List Player × List CellOwner =>
                ∀ p ∈ acc2.1, 0 ≤ p.money) hm ?_
            intro acc2 pid _ hacc2
            exact cellConflictStep_money cell _ pendingBuy acc2 pid hacc2
          refine ⟨hrun, ?_, ?_⟩
          · intro c hc hbl
            rcases mem_updateFirst hc with hmem | ⟨a, ha, rfl⟩
            · exact hbf c hmem hbl
            · exfalso
              have hub : a.blocked = false :=
                cellUnblockedRef_of_sameShape hshape
                  (hcfref conflictId cellId pids rfl) a ha
              simp at hbl
              rw [hub] at hbl
              exact Bool.false_ne_true hbl
          · exact sameShape_trans hshape
              (sameShape_updateFirst _ _ _ (fun c => ⟨rfl, rfl⟩))

theorem inv_resolveAuction {st : RoomState} (h : Inv st) :
    Inv (resolveAuction st) := by
  have hfold : (∀ p ∈ (st.conflicts.foldl
        (resolveOneConflict st.auctionBids st.pendingBuy)
        (st.players, st.grid, st.marketDice)).1, 0 ≤ p.money)
      ∧ (∀ c ∈ (st.conflicts.foldl
          (resolveOneConflict st.auctionBids st.pendingBuy)
          (st.players, st.grid, st.marketDice)).2.1, c.blocked = true → c.owners = [])
      ∧ sameShape st.grid (st.conflicts.foldl
          (resolveOneConflict st.auctionBids st.pendingBuy)
          (st.players, st.grid, st.marketDice)).2.1 := by
    refine foldl_preserve
      (P := fun acc : List Player × List Cell × List Int =>
        (∀ p ∈ acc.1, 0 ≤ p.money)
        ∧ (∀ c ∈ acc.2.1, c.blocked = true → c.owners = [])
        ∧ sameShape st.grid acc.2.1)
      ⟨h.moneyNonneg, h.blockedFree, sameShape_refl _⟩ ?_
    intro acc cf hcf hacc
    exact resolveOneConflict_inv st.auctionBids st.pendingBuy st.grid acc cf
      hacc.1 hacc.2.1 hacc.2.2
      (fun cid cellId pids heq => h.conflictRefs cid cellId pids (heq ▸ hcf))
  unfold resolveAuction
  dsimp only
  refine ⟨hfold.2.1, ?_, ?_, hfold.1⟩
  · intro pb hpb
    simp [clearPending] at hpb
  · intro cid cellId pids hmem
    simp [clearPending] at hmem



theorem inv_alarmStep {st : RoomState} (h : Inv st) (nd : List Int)
    (f : PlayerId → List Int) : Inv (alarmStep st nd f) := by
  unfold alarmStep
  cases hp : st.phase
  case lobby => exact h
  case round_start => exact inv_resolveRoundStart h nd
  case market_phase => exact inv_resolveMarketPhase h
  case buy_phase => exact inv_resolveBuyPhase h
  case path_phase => exact inv_resolvePathPhase h f
  case auction => exact inv_resolveAuction h
  case round_end => exact inv_resolveRoundEnd h nd
  case ended => exact h

theorem reachable_inv {st : RoomState} (h : Reachable st) : Inv st := by
  induction h with
  | init rc => exact inv_initialState rc
  | join st pid _ ih => exact inv_handleJoin ih pid
  | startGame st bi dv pv sv hs md _ ih =>
      exact inv_handleStartGame ih bi dv pv sv hs md
  | action st pid a _ ih => exact inv_handle ih pid a
  | alarm st nd f _ ih => exact inv_alarmStep ih nd f

theorem reachable_exampleReachState : Reachable exampleReachState :=
  Reachable.startGame _ [0, 1, 2, 3, 4] (fun _ => 1) (fun _ => 2) (fun _ => 3)
    (fun _ => [1, 1, 1]) [4]
    (Reachable.join _ "P2" (Reachable.join _ "P1" (Reachable.init 1)))

/-- **C9**: in every reachable room state a blocked cell has no owners;
board generation creates every cell (blocked ones included) with an empty
owner list, queuing a buy for a blocked cell is rejected with an error and
no state change, and no resolution step (buy commit, auction, aging) ever
adds an owner to a blocked cell — the first conjunct is the inductive
invariant over all reachable states, which covers every operation. -/
theorem blocked_cells_never_owned :
    (∀ st : RoomState, Reachable st → ∀ c ∈ st.grid, c.blocked = true → c.owners = [])
    ∧ (∀ (minCells blockedCount : Nat) (blockedIdx : List Nat)
        (diceVals prodVals sellVals : Nat → Int),
        ∀ c ∈ generateGrid minCells blockedCount blockedIdx diceVals prodVals sellVals,
          c.owners = [])
    ∧ (∀ (st : RoomState) (pid : PlayerId) (cellId : CellId) (role : Role) (cell : Cell),
        st.phase = .buy_phase →
        st.grid.find? (fun c => c.id == cellId) = some cell →
        cell.blocked = true →
        handleBuyCell st pid cellId role = (st, [.error "Invalid buy"])) := by
  refine ⟨?_, ?_, ?_⟩
  · intro st hreach
    exact (reachable_inv hreach).blockedFree
  · intro minCells blockedCount blockedIdx diceVals prodVals sellVals c hc
    exact generateGrid_owners _ _ _ _ _ _ c hc
  · intro st pid cellId role cell hphase hcell hbl
    unfold handleBuyCell
    rw [if_neg (by simp [hphase]), hcell]
    cases hp : st.players.find? (fun p => p.playerId == pid) with
    | none => rfl
    | some player =>
        dsimp only
        rw [if_pos (Or.inl hbl)]

/-- Witness for `blocked_cells_never_owned` at a concretely reachable
post-`start_game` state whose board has five blocked cells. -/
theorem blocked_cells_never_owned_witness :
    (⟨"cell--1-0", -1, 0, 1, 2, 3, true, []⟩ : Cell) ∈ exampleReachState.grid
    ∧ (⟨"cell--1-0", -1, 0, 1, 2, 3, true, []⟩ : Cell).blocked = true
    ∧ (⟨"cell--1-0", -1, 0, 1, 2, 3, true, []⟩ : Cell).owners = [] :=
  ⟨by decide, by decide,
   blocked_cells_never_owned.1 exampleReachState reachable_exampleReachState _ (by decide) (by decide)⟩

/-- **C10**: every player's money is non-negative in every reachable
state; the three money-decreasing sites (market single-winner award,
auction market-conflict award, auction cell-conflict co-ownership) are
each guarded by a solvency check, and every other operation only
increases or preserves money — the statement is the inductive invariant
over all reachable states. -/
theorem player_money_nonnegative :
    ∀ st : RoomState, Reachable st → ∀ p ∈ st.players, 0 ≤ p.money :=
  fun _ hreach => (reachable_inv hreach).moneyNonneg

/-- Witness for `player_money_nonnegative` at the same reachable state. -/
theorem player_money_nonnegative_witness :
    (⟨"P1", 10, [1, 1, 1]⟩ : Player) ∈ exampleReachState.players
    ∧ 0 ≤ (⟨"P1", 10, [1, 1, 1]⟩ : Player).money :=
  ⟨by decide,
   player_money_nonnegative exampleReachState reachable_exampleReachState _ (by decide)⟩

end Game2
